import Mathlib

/-!
# Verification of the Motr SAL layer (rgw_sal_motr.cc) against its specification

Shallow embedding of the version-id generation, object resolution, statistics,
and multipart-upload logic of `src/rgw/rgw_sal_motr.cc`, with theorems settling
the specification claims about them.

Machine integers are modelled as `Nat` with explicit reduction modulo `2^32`
(C++ `unsigned`) or `2^64` (`uint64_t`) at the operations where the C++ code
can overflow.  Index values are modelled as typed records (the ceph
`encode`/`decode` round-trip is treated as the identity).
-/

namespace MotrSal

/-! ## Machine-integer helpers -/

/-- `2^32`, the modulus of C++ `unsigned` arithmetic. -/
def M32 : Nat := 2 ^ 32

/-- `2^64`, the modulus of C++ `uint64_t` arithmetic. -/
def M64 : Nat := 2 ^ 64

/-- `uint64_t` subtraction `a - b` (two's complement wrap-around),
for `a b < 2^64`. -/
def u64sub (a b : Nat) : Nat := (a + (M64 - b % M64)) % M64

theorem u64sub_eq_sub (a b : Nat) (ha : a < M64) (hba : b ≤ a) :
    u64sub a b = a - b := by
  unfold u64sub
  have hb : b % M64 = b := Nat.mod_eq_of_lt (lt_of_le_of_lt hba ha)
  rw [hb]
  have h1 : a + (M64 - b) = (a - b) + M64 := by omega
  rw [h1, Nat.add_mod_right]
  exact Nat.mod_eq_of_lt (by omega)

/-! ## C1 — base62 encoding of the inverted millisecond timestamp

Embeds `base62_encode` (rgw_sal_motr.cc:161-190) and
`MotrObject::gen_rand_obj_instance_name` (rgw_sal_motr.cc:1861-1878). -/

/-- Width of the encoded timestamp prefix (`#define TS_LEN 8`). -/
def TS_LEN : Nat := 8

/-- Length of the random suffix (`#define UUID_LEN 23`). -/
def UUID_LEN : Nat := 23

/-- The base62 alphabet table of `base62_encode`: `0-9`, `A-Z`, `a-z`,
sorted in lexicographical order. -/
def base62_chars : List Char :=
  ['0', '1', '2', '3', '4', '5', '6', '7', '8', '9',
   'A', 'B', 'C', 'D', 'E', 'F', 'G', 'H', 'I', 'J', 'K', 'L', 'M',
   'N', 'O', 'P', 'Q', 'R', 'S', 'T', 'U', 'V', 'W', 'X', 'Y', 'Z',
   'a', 'b', 'c', 'd', 'e', 'f', 'g', 'h', 'i', 'j', 'k', 'l', 'm',
   'n', 'o', 'p', 'q', 'r', 's', 't', 'u', 'v', 'w', 'x', 'y', 'z']

/-- Table lookup `base62_chars[d]` (defaulting to `'0'`; every use has
`d < 62`). -/
def base62_char (d : Nat) : Char := base62_chars.getD d '0'

/-- Fuel-driven helper for `b62LE` (the fuel only serves termination; any
fuel `≥ v` computes the digits of `v`). -/
def b62LEAux : Nat → Nat → List Nat
  | 0, _ => []
  | fuel + 1, v => if v = 0 then [] else v % 62 :: b62LEAux fuel (v / 62)

/-- The little-endian base62 digits accumulated by the `while (value > 0)`
loop of `base62_encode`: `ret += base62_chars[value % 62]; value /= 62;`. -/
def b62LE (v : Nat) : List Nat := b62LEAux v v

theorem b62LEAux_eq (fuel v : Nat) (h : v ≤ fuel) :
    b62LEAux fuel v = if v = 0 then [] else v % 62 :: b62LEAux (fuel - 1) (v / 62) := by
  cases fuel with
  | zero =>
    have : v = 0 := Nat.le_zero.mp h
    subst this
    rfl
  | succ n => rfl

theorem b62LEAux_congr (f1 f2 v : Nat) (h1 : v ≤ f1) (h2 : v ≤ f2) :
    b62LEAux f1 v = b62LEAux f2 v := by
  induction f1 using Nat.strong_induction_on generalizing f2 v with
  | _ f1 ih =>
    rw [b62LEAux_eq f1 v h1, b62LEAux_eq f2 v h2]
    by_cases hv : v = 0
    · simp [hv]
    · simp only [hv, if_false]
      have hlt : v / 62 < v := Nat.div_lt_self (Nat.pos_of_ne_zero hv) (by omega)
      have hf1 : 0 < f1 := lt_of_lt_of_le (Nat.pos_of_ne_zero hv) h1
      congr 1
      exact ih (f1 - 1) (by omega) (f2 - 1) (v / 62) (by omega) (by omega)

/-- The defining recurrence of `b62LE`. -/
theorem b62LE_eq (v : Nat) :
    b62LE v = if v = 0 then [] else v % 62 :: b62LE (v / 62) := by
  unfold b62LE
  rw [b62LEAux_eq v v le_rfl]
  by_cases hv : v = 0
  · simp [hv]
  · simp only [hv, if_false]
    congr 1
    have hlt : v / 62 < v := Nat.div_lt_self (Nat.pos_of_ne_zero hv) (by omega)
    exact b62LEAux_congr (v - 1) (v / 62) (v / 62) (by omega) le_rfl

/-- `base62_encode(value, pad)` (rgw_sal_motr.cc:161-190): the base62 digits
of `value` (just `"0"` for zero), reversed to most-significant-first, and
left-padded with `'0'` up to `pad` characters. -/
def base62_encode (value : Nat) (pad : Nat) : String :=
  let retLE : List Nat := if value = 0 then [0] else b62LE value
  let ret : List Char := (retLE.map base62_char).reverse
  let ret := if ret.length < pad then List.replicate (pad - ret.length) '0' ++ ret else ret
  ⟨ret⟩

/-- Maximum value encodable in 8 base62 characters: `62^8 - 1`
(the constant `max_ts_count = 218340105584895` of
`gen_rand_obj_instance_name`). -/
def max_ts_count : Nat := 218340105584895

/-- `MotrObject::gen_rand_obj_instance_name` (rgw_sal_motr.cc:1861-1878):
the generated instance string for millisecond timestamp `ms` and the
random alphanumeric buffer `rand` produced by
`gen_rand_alphanumeric_no_underscore` (an external ceph helper, taken here
as a parameter): `base62_encode(max_ts_count - ms, TS_LEN)` followed by
`rand`.  The `uint64_t` subtraction is modelled with wrap-around. -/
def gen_rand_obj_instance_name (ms : Nat) (rand : String) : String :=
  base62_encode (u64sub max_ts_count ms) TS_LEN ++ rand

/-- Index of a character in the base62 alphabet. -/
def base62_index (c : Char) : Nat := base62_chars.indexOf c

/-- Modelled from the spec: the spec's *Version-id round-trip* property
("encoding `ms=t` and decoding yields `t`") refers to a base62 decoder that
has no counterpart under `src/`; following the spec's alphabet
(`0-9A-Za-z`, sorted) the decoder folds the digit values
most-significant-first. -/
def base62_decode (s : String) : Nat :=
  s.toList.foldl (fun acc c => acc * 62 + base62_index c) 0

example : base62_encode 0 8 = "00000000" := by decide
example : base62_encode 61 2 = "0z" := by decide
example : base62_encode 62 1 = "10" := by decide
example : base62_decode "10" = 62 := by decide

/-! ### Arithmetic facts about the base62 digit strings -/

/-- Value of a most-significant-first digit list. -/
def evalDigits (l : List Nat) : Nat := l.foldl (fun a d => a * 62 + d) 0

theorem evalDigits_append_singleton (xs : List Nat) (d : Nat) :
    evalDigits (xs ++ [d]) = evalDigits xs * 62 + d := by
  unfold evalDigits
  rw [List.foldl_append]
  rfl

theorem evalDigits_reverse_b62LE (v : Nat) :
    evalDigits (b62LE v).reverse = v := by
  induction v using Nat.strong_induction_on with
  | _ v ih =>
    rw [b62LE_eq]
    by_cases hv : v = 0
    · simp [hv, evalDigits]
    · simp only [hv, if_false, List.reverse_cons]
      rw [evalDigits_append_singleton]
      have hlt : v / 62 < v := Nat.div_lt_self (Nat.pos_of_ne_zero hv) (by omega)
      rw [ih (v / 62) hlt]
      omega

theorem evalDigits_replicate_zero_append (k : Nat) (l : List Nat) :
    evalDigits (List.replicate k 0 ++ l) = evalDigits l := by
  induction k with
  | zero => rfl
  | succ n ihn =>
    rw [List.replicate_succ, List.cons_append]
    show evalDigits (List.replicate n 0 ++ l) = _
    exact ihn

theorem b62LE_digits_lt (v : Nat) : ∀ d ∈ b62LE v, d < 62 := by
  induction v using Nat.strong_induction_on with
  | _ v ih =>
    rw [b62LE_eq]
    by_cases hv : v = 0
    · simp [hv]
    · simp only [hv, if_false]
      intro d hd
      rcases List.mem_cons.mp hd with h | h
      · subst h; exact Nat.mod_lt _ (by omega)
      · exact ih (v / 62) (Nat.div_lt_self (Nat.pos_of_ne_zero hv) (by omega)) d h

theorem b62LE_length_le (w : Nat) : ∀ v, v < 62 ^ w → (b62LE v).length ≤ w := by
  induction w with
  | zero =>
    intro v hv
    have : v = 0 := by simpa using hv
    subst this
    simp [b62LE_eq]
  | succ n ihn =>
    intro v hv
    rw [b62LE_eq]
    by_cases h0 : v = 0
    · simp [h0]
    · simp only [h0, if_false, List.length_cons]
      have : v / 62 < 62 ^ n := by
        rw [Nat.div_lt_iff_lt_mul (by omega)]
        calc v < 62 ^ (n + 1) := hv
        _ = 62 ^ n * 62 := by ring
      exact Nat.succ_le_succ (ihn _ this)

/-- The digit list (most significant first, zero-padded) that
`base62_encode v pad` maps through the alphabet table. -/
def padDigits (v pad : Nat) : List Nat :=
  let r := (if v = 0 then [0] else b62LE v).reverse
  if r.length < pad then List.replicate (pad - r.length) 0 ++ r else r

theorem base62_encode_data (v pad : Nat) :
    (base62_encode v pad).data = (padDigits v pad).map base62_char := by
  unfold base62_encode padDigits
  have hmaprev : ((if v = 0 then [0] else b62LE v).map base62_char).reverse
      = ((if v = 0 then [0] else b62LE v).reverse).map base62_char := by
    rw [List.map_reverse]
  simp only [hmaprev, List.length_map]
  by_cases hlen : ((if v = 0 then [0] else b62LE v).reverse).length < pad
  · simp only [hlen, if_true, List.map_append, List.map_replicate]
    rfl
  · simp only [hlen, if_false]

theorem padDigits_eval (v pad : Nat) : evalDigits (padDigits v pad) = v := by
  unfold padDigits
  have hrev : evalDigits ((if v = 0 then [0] else b62LE v).reverse) = v := by
    by_cases h0 : v = 0
    · simp [h0, evalDigits]
    · simp only [h0, if_false]
      exact evalDigits_reverse_b62LE v
  by_cases hlen : ((if v = 0 then [0] else b62LE v).reverse).length < pad
  · simp only [hlen, if_true]
    rw [evalDigits_replicate_zero_append]
    exact hrev
  · simp only [hlen, if_false]
    exact hrev

theorem padDigits_lt (v pad : Nat) : ∀ d ∈ padDigits v pad, d < 62 := by
  unfold padDigits
  have hbase : ∀ d ∈ (if v = 0 then [0] else b62LE v).reverse, d < 62 := by
    intro d hd
    rw [List.mem_reverse] at hd
    by_cases h0 : v = 0
    · simp [h0] at hd; omega
    · simp only [h0, if_false] at hd
      exact b62LE_digits_lt v d hd
  intro d hd
  by_cases hlen : ((if v = 0 then [0] else b62LE v).reverse).length < pad
  · simp only [hlen, if_true] at hd
    rcases List.mem_append.mp hd with h | h
    · have := List.eq_of_mem_replicate h
      omega
    · exact hbase d h
  · simp only [hlen, if_false] at hd
    exact hbase d hd

theorem padDigits_length (v pad : Nat) (hpad : 0 < pad) (hv : v < 62 ^ pad) :
    (padDigits v pad).length = pad := by
  unfold padDigits
  have hle : ((if v = 0 then [0] else b62LE v).reverse).length ≤ pad := by
    rw [List.length_reverse]
    by_cases h0 : v = 0
    · simpa [h0] using hpad
    · simp only [h0, if_false]
      exact b62LE_length_le pad v hv
  by_cases hlen : ((if v = 0 then [0] else b62LE v).reverse).length < pad
  · simp only [hlen, if_true, List.length_append, List.length_replicate]
    omega
  · simp only [hlen, if_false]
    omega

/-! ### Lexicographic monotonicity of the fixed-width encoding -/

theorem base62_char_mono : ∀ i j : Fin 62, i < j → base62_char i.val < base62_char j.val := by
  decide

theorem base62_index_char : ∀ d : Fin 62, base62_index (base62_char d.val) = d.val := by
  decide

theorem foldl_eval_init (l : List Nat) :
    ∀ a : Nat, l.foldl (fun a d => a * 62 + d) a = a * 62 ^ l.length + evalDigits l := by
  induction l with
  | nil => intro a; simp [evalDigits]
  | cons d l ih =>
    intro a
    show List.foldl _ (a * 62 + d) l = _
    rw [ih (a * 62 + d)]
    have hd : evalDigits (d :: l) = d * 62 ^ l.length + evalDigits l := by
      show List.foldl _ (0 * 62 + d) l = _
      rw [ih (0 * 62 + d)]
      ring_nf
    rw [hd]
    simp [List.length_cons, pow_succ]
    ring

theorem evalDigits_cons (d : Nat) (l : List Nat) :
    evalDigits (d :: l) = d * 62 ^ l.length + evalDigits l := by
  show List.foldl _ (0 * 62 + d) l = _
  rw [foldl_eval_init l (0 * 62 + d)]
  ring_nf

theorem evalDigits_lt_pow (l : List Nat) (h : ∀ d ∈ l, d < 62) :
    evalDigits l < 62 ^ l.length := by
  induction l with
  | nil => simp [evalDigits]
  | cons d l ih =>
    rw [evalDigits_cons]
    have hd : d < 62 := h d (List.mem_cons_self d l)
    have hl : evalDigits l < 62 ^ l.length := ih (fun x hx => h x (List.mem_cons_of_mem d hx))
    calc d * 62 ^ l.length + evalDigits l < d * 62 ^ l.length + 62 ^ l.length := by omega
    _ = (d + 1) * 62 ^ l.length := by ring
    _ ≤ 62 * 62 ^ l.length := Nat.mul_le_mul_right _ (by omega)
    _ = 62 ^ (d :: l).length := by rw [List.length_cons, pow_succ]; ring

/-- Digit lists of equal width, with digits below 62, compare through the
alphabet table in value order. -/
theorem charlist_lt_of_evalDigits_lt :
    ∀ (xs ys : List Nat), xs.length = ys.length →
    (∀ d ∈ xs, d < 62) → (∀ d ∈ ys, d < 62) →
    evalDigits xs < evalDigits ys →
    List.Lex (· < ·) (xs.map base62_char) (ys.map base62_char) := by
  intro xs
  induction xs with
  | nil =>
    intro ys hlen _ _ h
    have : ys = [] := List.length_eq_zero.mp hlen.symm
    subst this
    exact absurd h (by simp [evalDigits])
  | cons x xs ih =>
    intro ys hlen hx hy h
    cases ys with
    | nil => exact absurd hlen (by simp)
    | cons y ys =>
      have hn : xs.length = ys.length := by simpa using hlen
      have hxlt : x < 62 := hx x (List.mem_cons_self x xs)
      have hylt : y < 62 := hy y (List.mem_cons_self y ys)
      have hxs : ∀ d ∈ xs, d < 62 := fun d hd => hx d (List.mem_cons_of_mem x hd)
      have hys : ∀ d ∈ ys, d < 62 := fun d hd => hy d (List.mem_cons_of_mem y hd)
      rcases lt_trichotomy x y with hxy | hxy | hxy
      · exact List.Lex.rel (base62_char_mono ⟨x, hxlt⟩ ⟨y, hylt⟩ hxy)
      · subst hxy
        refine List.Lex.cons ?_
        refine ih ys hn hxs hys ?_
        rw [evalDigits_cons, evalDigits_cons, hn] at h
        omega
      · exfalso
        rw [evalDigits_cons, evalDigits_cons, hn] at h
        have h1 : evalDigits ys < 62 ^ ys.length := evalDigits_lt_pow ys hys
        have h2 : (y + 1) * 62 ^ ys.length ≤ x * 62 ^ ys.length :=
          Nat.mul_le_mul_right _ (by omega)
        have := Nat.zero_le (evalDigits xs)
        nlinarith

/-- Fixed-width base62 encoding is strictly monotone under lexicographic
string comparison. -/
theorem base62_encode_lt (a b : Nat) (ha : a < 62 ^ 8) (hb : b < 62 ^ 8) (hab : a < b) :
    base62_encode a 8 < base62_encode b 8 := by
  refine String.lt_iff_toList_lt.mpr ?_
  show List.Lex (· < ·) (base62_encode a 8).data (base62_encode b 8).data
  rw [base62_encode_data, base62_encode_data]
  refine charlist_lt_of_evalDigits_lt _ _ ?_ (padDigits_lt a 8) (padDigits_lt b 8) ?_
  · rw [padDigits_length a 8 (by omega) ha, padDigits_length b 8 (by omega) hb]
  · rw [padDigits_eval, padDigits_eval]
    exact hab

/-- Decoding inverts the 8-character encoding. -/
theorem base62_decode_encode (v : Nat) : base62_decode (base62_encode v 8) = v := by
  unfold base62_decode
  have hdata : (base62_encode v 8).toList = (padDigits v 8).map base62_char := by
    rw [String.toList, base62_encode_data]
  rw [hdata, List.foldl_map]
  have hcongr : ∀ (l : List Nat), (∀ d ∈ l, d < 62) → ∀ acc : Nat,
      List.foldl (fun a d => a * 62 + base62_index (base62_char d)) acc l
      = List.foldl (fun a d => a * 62 + d) acc l := by
    intro l
    induction l with
    | nil => intro _ _; rfl
    | cons d l ih =>
      intro hl acc
      have hd : d < 62 := hl d (List.mem_cons_self d l)
      show List.foldl _ (acc * 62 + base62_index (base62_char d)) l = _
      rw [base62_index_char ⟨d, hd⟩]
      exact ih (fun x hx => hl x (List.mem_cons_of_mem d hx)) (acc * 62 + d)
  rw [hcongr _ (padDigits_lt v 8) 0]
  exact padDigits_eval v 8

theorem base62_encode_length (v : Nat) (hv : v < 62 ^ 8) :
    (base62_encode v 8).length = 8 := by
  show (base62_encode v 8).data.length = 8
  rw [base62_encode_data, List.length_map]
  exact padDigits_length v 8 (by omega) hv

/-- C1: for every millisecond timestamp `t < 62^8`, the generated instance
string is the 8-character base62 encoding (alphabet `0-9A-Za-z`, zero-padded
on the left) of `62^8 - 1 - t` followed by the 23 random alphanumeric
characters; decoding the 8-character prefix recovers `t`; and for `t1 < t2`
the encoded prefix of `t2` is lexicographically smaller than that of `t1`
(newest-first order). -/
theorem C1_version_id_instance (t t1 t2 : Nat) (rand : String)
    (ht : t < 62 ^ 8) (ht1 : t1 < 62 ^ 8) (ht2 : t2 < 62 ^ 8)
    (h12 : t1 < t2) (hrand : rand.length = 23) :
    gen_rand_obj_instance_name t rand = base62_encode (62 ^ 8 - 1 - t) 8 ++ rand
    ∧ (base62_encode (62 ^ 8 - 1 - t) 8).length = 8
    ∧ (gen_rand_obj_instance_name t rand).length = 31
    ∧ 62 ^ 8 - 1 - base62_decode (base62_encode (62 ^ 8 - 1 - t) 8) = t
    ∧ gen_rand_obj_instance_name t2 rand < gen_rand_obj_instance_name t1 rand
    ∧ base62_encode (62 ^ 8 - 1 - t2) 8 < base62_encode (62 ^ 8 - 1 - t1) 8 := by
  have hmax : max_ts_count = 62 ^ 8 - 1 := by decide
  have hsub : ∀ s : Nat, s < 62 ^ 8 → u64sub max_ts_count s = 62 ^ 8 - 1 - s := by
    intro s hs
    rw [u64sub_eq_sub max_ts_count s (by decide) (by omega)]
    omega
  have henc : gen_rand_obj_instance_name t rand = base62_encode (62 ^ 8 - 1 - t) 8 ++ rand := by
    unfold gen_rand_obj_instance_name
    rw [hsub t ht]
    rfl
  have hlen8 : (base62_encode (62 ^ 8 - 1 - t) 8).length = 8 :=
    base62_encode_length _ (by omega)
  have hword : base62_encode (62 ^ 8 - 1 - t2) 8 < base62_encode (62 ^ 8 - 1 - t1) 8 :=
    base62_encode_lt _ _ (by omega) (by omega) (by omega)
  refine ⟨henc, hlen8, ?_, ?_, ?_, hword⟩
  · rw [henc, String.length_append, hlen8, hrand]
  · rw [base62_decode_encode]
    omega
  · unfold gen_rand_obj_instance_name
    rw [hsub t1 ht1, hsub t2 ht2]
    show base62_encode _ 8 ++ rand < base62_encode _ 8 ++ rand
    -- prefixes of equal length compare before the appended suffix matters
    have hlex := base62_encode_lt _ _ (show 62 ^ 8 - 1 - t2 < 62 ^ 8 by omega)
      (show 62 ^ 8 - 1 - t1 < 62 ^ 8 by omega) (by omega)
    rw [String.lt_iff_toList_lt] at hlex
    refine String.lt_iff_toList_lt.mpr ?_
    show List.Lex (· < ·) (String.data _) (String.data _)
    rw [String.data_append, String.data_append]
    have hlenp : (base62_encode (62 ^ 8 - 1 - t2) 8).data.length
        = (base62_encode (62 ^ 8 - 1 - t1) 8).data.length := by
      show (base62_encode _ 8).length = (base62_encode _ 8).length
      rw [base62_encode_length _ (by omega), base62_encode_length _ (by omega)]
    have hlex' : List.Lex (· < ·) (base62_encode (62 ^ 8 - 1 - t2) 8).data
        (base62_encode (62 ^ 8 - 1 - t1) 8).data := hlex
    -- append on the right preserves strict lexicographic comparison of
    -- equal-length prefixes
    clear hword hlen8 henc hlex
    generalize (base62_encode (62 ^ 8 - 1 - t2) 8).data = xs at hlex' hlenp
    generalize (base62_encode (62 ^ 8 - 1 - t1) 8).data = ys at hlex' hlenp
    induction xs generalizing ys with
    | nil =>
      have : ys = [] := List.length_eq_zero.mp hlenp.symm
      subst this
      cases hlex'
    | cons x xs ih =>
      cases ys with
      | nil => exact absurd hlenp (by simp)
      | cons y ys =>
        cases hlex' with
        | rel h => exact List.Lex.rel h
        | cons h => exact List.Lex.cons (ih ys h (by simpa using hlenp))

/-- Witness for `C1_version_id_instance` at `t = 3`, `t1 = 5`, `t2 = 9`. -/
theorem C1_version_id_instance_witness :
    (3 < 62 ^ 8 ∧ 5 < 62 ^ 8 ∧ 9 < 62 ^ 8 ∧ 5 < 9
      ∧ ("abcdefghijklmnopqrstuvw" : String).length = 23)
    ∧ (gen_rand_obj_instance_name 3 "abcdefghijklmnopqrstuvw"
        = base62_encode (62 ^ 8 - 1 - 3) 8 ++ "abcdefghijklmnopqrstuvw"
      ∧ (base62_encode (62 ^ 8 - 1 - 3) 8).length = 8
      ∧ (gen_rand_obj_instance_name 3 "abcdefghijklmnopqrstuvw").length = 31
      ∧ 62 ^ 8 - 1 - base62_decode (base62_encode (62 ^ 8 - 1 - 3) 8) = 3
      ∧ gen_rand_obj_instance_name 9 "abcdefghijklmnopqrstuvw"
          < gen_rand_obj_instance_name 5 "abcdefghijklmnopqrstuvw"
      ∧ base62_encode (62 ^ 8 - 1 - 9) 8 < base62_encode (62 ^ 8 - 1 - 5) 8) :=
  ⟨⟨by decide, by decide, by decide, by decide, by decide⟩,
    C1_version_id_instance 3 5 9 "abcdefghijklmnopqrstuvw"
      (by decide) (by decide) (by decide) (by decide) (by decide)⟩

/-! ## Error codes

POSIX / rgw error values used by the embedded functions (the code returns
their negations). -/

def ENOENT : Int := 2
def ERR_METHOD_NOT_ALLOWED : Int := 2003
def ERR_NO_SUCH_UPLOAD : Int := 2209
def ERR_INVALID_PART : Int := 2206
def ERR_TOO_SMALL : Int := 2010

/-! ## `roundup` (rgw_sal_motr.cc:130-135) -/

/-- `roundup(x, by)`: rounds `x` up to a multiple of `b` (0 for `x = 0`),
computed in `uint64_t`. -/
def roundup (x b : Nat) : Nat :=
  if x = 0 then 0 else ((x - 1) / b + 1) * b

/-! ## C9 — block-size selection `MotrObject::get_optimal_bs`
(rgw_sal_motr.cc:4046-4078) -/

/-- `MotrObject::get_optimal_bs(len, last)` for an object whose pool version
has pdclust attributes `N` (data units), `K` (parity), `S` (spare),
`P` (pool width) and unit size `unit_sz`.  All locals are C++ `unsigned`,
so every arithmetic step is reduced mod `2^32`; the `roundup` helper
computes in `uint64_t` and its result is truncated on assignment back to
`unsigned`. -/
def get_optimal_bs (N K S P unit_sz len : Nat) (last : Bool) : Nat :=
  let grp_sz := unit_sz * N % M32
  let depth0 := 128 / ((unit_sz + 0x7fff) % M32 / 0x8000)
  let depth := if depth0 = 0 then 1 else depth0
  let num := depth * unit_sz % M32 * P % M32 * N % M32
  let den := ((N + K) % M32 + S) % M32
  let max_bs := roundup (num / den) grp_sz % M32
  if max_bs ≤ len then max_bs
  else if last then roundup len unit_sz % M32
  else roundup len grp_sz % M32

/-- The block-size selection as the spec words it (§4.7): group size
`G = N·U`, saturation depth `128/⌈U/32KiB⌉` (no clamping), maximum block
`depth·U·P·N/(N+K+S)` rounded up to a multiple of `G`.  Second definition,
kept separate from the code's `get_optimal_bs` for comparison. -/
def get_optimal_bs_spec (N K S P unit_sz len : Nat) (last : Bool) : Nat :=
  let G := unit_sz * N
  let depth := 128 / ((unit_sz + 32767) / 32768)
  let max_bs := roundup (depth * unit_sz * P * N / (N + K + S)) G
  if max_bs ≤ len then max_bs
  else if last then roundup len unit_sz
  else roundup len G

/-- C9 counterexample: with unit size `U = 8 MiB` (a valid Motr unit size),
`N = 1`, `K = S = 0`, `P = 1`, `len = 4096`, `is_last = false`, the spec's
formula gives depth `128/⌈8MiB/32KiB⌉ = 128/256 = 0`, hence `max_bs = 0`
and result `0`, while the code clamps the depth to 1
(`if (depth == 0) depth = 1;`) and returns `roundup(4096, 8MiB) = 8 MiB`. -/
theorem C9_counterexample :
    get_optimal_bs 1 0 0 1 (2 ^ 23) 4096 false
      ≠ get_optimal_bs_spec 1 0 0 1 (2 ^ 23) 4096 false := by
  decide

/-- C9 (amended): with the saturation depth clamped to a minimum of 1
(`if (depth == 0) depth = 1;`, rgw_sal_motr.cc:4066-4067) and in the
absence of 32-bit overflow, `get_optimal_bs` computes exactly the spec's
formula: `max_bs = roundup(depth·U·P·N/(N+K+S), G)` with `G = U·N` and
`depth = max(1, 128/⌈U/32KiB⌉)`; it returns `max_bs` when `len ≥ max_bs`,
otherwise `roundup(len, U)` when `is_last`, otherwise `roundup(len, G)`. -/
theorem C9_get_optimal_bs_amended (N K S P unit_sz len : Nat) (last : Bool)
    (hN : 0 < N) (hP : 0 < P)
    (hUm : unit_sz + 32767 < M32)
    (hG : unit_sz * N < M32)
    (hden : N + K + S < M32)
    (hnum : (max 1 (128 / ((unit_sz + 32767) / 32768))) * unit_sz * P * N < M32)
    (hmb : roundup ((max 1 (128 / ((unit_sz + 32767) / 32768))) * unit_sz * P * N
             / (N + K + S)) (unit_sz * N) < M32)
    (hr1 : roundup len unit_sz < M32)
    (hr2 : roundup len (unit_sz * N) < M32) :
    get_optimal_bs N K S P unit_sz len last =
      (let G := unit_sz * N
       let depth := max 1 (128 / ((unit_sz + 32767) / 32768))
       let max_bs := roundup (depth * unit_sz * P * N / (N + K + S)) G
       if max_bs ≤ len then max_bs
       else if last then roundup len unit_sz
       else roundup len G) := by
  simp only [get_optimal_bs]
  have e0 : (unit_sz + 0x7fff) % M32 = unit_sz + 32767 := Nat.mod_eq_of_lt hUm
  have edep : (if 128 / ((unit_sz + 0x7fff) % M32 / 0x8000) = 0 then 1
      else 128 / ((unit_sz + 0x7fff) % M32 / 0x8000))
      = max 1 (128 / ((unit_sz + 32767) / 32768)) := by
    rw [e0]
    show (if 128 / ((unit_sz + 32767) / 32768) = 0 then 1
      else 128 / ((unit_sz + 32767) / 32768)) = _
    by_cases hz : 128 / ((unit_sz + 32767) / 32768) = 0
    · simp [hz]
    · simp only [hz, if_false]
      exact (max_eq_right (Nat.one_le_iff_ne_zero.mpr hz)).symm
  rw [edep]
  set depth := max 1 (128 / ((unit_sz + 32767) / 32768)) with hdepth
  have hd1 : 1 ≤ depth := le_max_left _ _
  have h1 : depth * unit_sz ≤ depth * unit_sz * P * N := by
    calc depth * unit_sz = depth * unit_sz * 1 * 1 := by ring
    _ ≤ depth * unit_sz * P * N :=
      Nat.mul_le_mul (Nat.mul_le_mul_left _ hP) hN
  have h2 : depth * unit_sz * P ≤ depth * unit_sz * P * N := by
    calc depth * unit_sz * P = depth * unit_sz * P * 1 := by ring
    _ ≤ depth * unit_sz * P * N := Nat.mul_le_mul_left _ hN
  have e1 : depth * unit_sz % M32 = depth * unit_sz :=
    Nat.mod_eq_of_lt (lt_of_le_of_lt h1 hnum)
  have e2 : depth * unit_sz * P % M32 = depth * unit_sz * P :=
    Nat.mod_eq_of_lt (lt_of_le_of_lt h2 hnum)
  have e3 : depth * unit_sz * P * N % M32 = depth * unit_sz * P * N :=
    Nat.mod_eq_of_lt hnum
  have e4 : (N + K) % M32 = N + K := Nat.mod_eq_of_lt (by omega)
  have e5 : (N + K + S) % M32 = N + K + S := Nat.mod_eq_of_lt hden
  have e6 : unit_sz * N % M32 = unit_sz * N := Nat.mod_eq_of_lt hG
  rw [e1, e2, e3, e4, e5, e6]
  have e7 : roundup (depth * unit_sz * P * N / (N + K + S)) (unit_sz * N) % M32
      = roundup (depth * unit_sz * P * N / (N + K + S)) (unit_sz * N) :=
    Nat.mod_eq_of_lt hmb
  rw [e7]
  have e8 : roundup len unit_sz % M32 = roundup len unit_sz := Nat.mod_eq_of_lt hr1
  have e9 : roundup len (unit_sz * N) % M32 = roundup len (unit_sz * N) :=
    Nat.mod_eq_of_lt hr2
  rw [e8, e9]

/-- Witness for `C9_get_optimal_bs_amended` at `N=4, K=2, S=0, P=8,
U=1MiB, len=1000000, last=false`. -/
theorem C9_get_optimal_bs_amended_witness :
    (0 < 4 ∧ 0 < 8 ∧ 2 ^ 20 + 32767 < M32 ∧ 2 ^ 20 * 4 < M32 ∧ 4 + 2 + 0 < M32
      ∧ (max 1 (128 / ((2 ^ 20 + 32767) / 32768))) * 2 ^ 20 * 8 * 4 < M32
      ∧ roundup ((max 1 (128 / ((2 ^ 20 + 32767) / 32768))) * 2 ^ 20 * 8 * 4 / (4 + 2 + 0))
          (2 ^ 20 * 4) < M32
      ∧ roundup 1000000 (2 ^ 20) < M32 ∧ roundup 1000000 (2 ^ 20 * 4) < M32)
    ∧ get_optimal_bs 4 2 0 8 (2 ^ 20) 1000000 false =
        (let G := 2 ^ 20 * 4
         let depth := max 1 (128 / ((2 ^ 20 + 32767) / 32768))
         let max_bs := roundup (depth * 2 ^ 20 * 8 * 4 / (4 + 2 + 0)) G
         if max_bs ≤ 1000000 then max_bs
         else if false then roundup 1000000 (2 ^ 20)
         else roundup 1000000 G) :=
  ⟨⟨by decide, by decide, by decide, by decide, by decide, by decide, by decide,
      by decide, by decide⟩,
    C9_get_optimal_bs_amended 4 2 0 8 (2 ^ 20) 1000000 false
      (by decide) (by decide) (by decide) (by decide) (by decide) (by decide)
      (by decide) (by decide) (by decide)⟩

/-! ## C8 — tiered multipart part placement
(`MotrMultipartCompositeWriter::process`, rgw_sal_motr.cc:5358-5374) -/

/-- `MOTR_MULTIPART_DEFAULT_PART_SIZE` (15 MiB, rgw_sal_motr.cc:5321). -/
def MOTR_MULTIPART_DEFAULT_PART_SIZE : Nat := 15 * 1024 * 1024

/-- A single write issued against the object service. -/
structure WriteReq where
  off : Nat
  len : Nat
deriving DecidableEq

/-- `MotrMultipartCompositeWriter::process(data, offset)`: the write issued
against the composite object, at
`off_in_composite_obj = (part_num - 1) * MOTR_MULTIPART_DEFAULT_PART_SIZE
+ offset` (`uint64_t` arithmetic). -/
def composite_writer_process (part_num data_len offset : Nat) : WriteReq :=
  { off := (u64sub part_num 1 * MOTR_MULTIPART_DEFAULT_PART_SIZE + offset) % M64
    len := data_len }

/-- C8: in the tiered strategy, a part write with part number `num ≥ 1` and
intra-part offset `off` is issued against the composite object at byte
offset `(num-1) * PART_SIZE + off` with `PART_SIZE` the fixed 15 MiB
constant, independent of the sizes of preceding parts. -/
theorem C8_composite_part_offset (num data_len off : Nat)
    (hnum : 1 ≤ num) (hnum64 : num < M64)
    (hfit : (num - 1) * MOTR_MULTIPART_DEFAULT_PART_SIZE + off < M64) :
    composite_writer_process num data_len off
      = { off := (num - 1) * (15 * 1024 * 1024) + off, len := data_len } := by
  unfold composite_writer_process
  rw [u64sub_eq_sub num 1 hnum64 hnum]
  congr 1
  unfold MOTR_MULTIPART_DEFAULT_PART_SIZE at hfit
  exact Nat.mod_eq_of_lt hfit

/-- Witness for `C8_composite_part_offset` at part 3, offset 100. -/
theorem C8_composite_part_offset_witness :
    (1 ≤ 3 ∧ 3 < M64 ∧ (3 - 1) * MOTR_MULTIPART_DEFAULT_PART_SIZE + 100 < M64)
    ∧ composite_writer_process 3 4096 100
        = { off := (3 - 1) * (15 * 1024 * 1024) + 100, len := 4096 } :=
  ⟨⟨by decide, by decide, by decide⟩,
    C8_composite_part_offset 3 4096 100 (by decide) (by decide) (by decide)⟩

/-! ## C10 — `update_bucket_stats` (rgw_sal_motr.cc:200-227)

The per-bucket stats header lives in the per-owner index
`motr.rgw.user.stats.<owner>` under the bucket-name key; the two-level
naming is modelled by keying on the `(owner, bucket)` pair.  The
`rgw_bucket_dir_header` encode/decode round-trip is the identity here, and
only the Main-category triple the function touches is modelled. -/

/-- The Main-category counters of a `rgw_bucket_dir_header`
(`rgw_bucket_category_stats`). -/
structure BCatStats where
  num_entries : Nat
  total_size : Nat
  actual_size : Nat
deriving DecidableEq

/-- The user-stats indices: `(owner, bucket) ↦ Main-category stats`. -/
abbrev StatsIdx := List ((String × String) × BCatStats)

/-- Association-list lookup (an index `M0_IC_GET`). -/
def lookupStats (idx : StatsIdx) (owner bucket : String) : Option BCatStats :=
  (idx.find? (fun p => p.1 == (owner, bucket))).map Prod.snd

/-- Association-list overwrite (an index `M0_IC_PUT`); the list represents
a key-value map, so the entry order is irrelevant. -/
def putStats (idx : StatsIdx) (owner bucket : String) (v : BCatStats) : StatsIdx :=
  ((owner, bucket), v) :: idx.filter (fun p => !(p.1 == (owner, bucket)))

/-- `update_bucket_stats(dpp, store, owner, bucket_name, size, actual_size,
num_objects, add_stats)` (rgw_sal_motr.cc:200-227): GET the header, add
`multiplier * delta` (in `uint64_t`, with `multiplier = add_stats ? 1 : -1`)
to the Main-category counters, PUT the header back.  A failed GET returns
the error with nothing written. -/
def update_bucket_stats (stats : StatsIdx) (owner bucket_name : String)
    (size actual_size : Nat) (num_objects : Nat) (add_stats : Bool) :
    Int × StatsIdx :=
  let multiplier : Nat := if add_stats then 1 else M64 - 1
  match lookupStats stats owner bucket_name with
  | none => (-ENOENT, stats)
  | some h =>
      let h' : BCatStats :=
        { num_entries := (h.num_entries + multiplier * num_objects) % M64
          total_size := (h.total_size + multiplier * size) % M64
          actual_size := (h.actual_size + multiplier * actual_size) % M64 }
      (0, putStats stats owner bucket_name h')

theorem lookupStats_putStats (idx : StatsIdx) (owner bucket : String) (v : BCatStats) :
    lookupStats (putStats idx owner bucket v) owner bucket = some v := by
  unfold lookupStats putStats
  rw [List.find?_cons_of_pos _ (by simp)]
  rfl

/-- Wrap-around subtraction `(old + (2^64-1)·d) mod 2^64` is the exact
difference `old - d` precisely when `d ≤ old`. -/
theorem wrap_sub_iff (old d : Nat) (ho : old < M64) (hd : d < M64) :
    ((old + (M64 - 1) * d) % M64 = old - d) ↔ d ≤ old := by
  have hMpos : 0 < M64 := pow_pos (by norm_num) 64
  have h2 : (M64 - 1) * d = M64 * d - d := by rw [Nat.sub_mul, one_mul]
  have h3 : d ≤ M64 * d := Nat.le_mul_of_pos_left d hMpos
  constructor
  · intro h
    by_contra hlt
    push_neg at hlt
    have h1 : 1 ≤ d := by omega
    have h4 : M64 * d = M64 * (d - 1) + M64 := by
      conv_lhs => rw [show d = (d - 1) + 1 by omega]
      rw [Nat.mul_succ]
    have hval : old + (M64 - 1) * d = (M64 + old - d) + M64 * (d - 1) := by omega
    rw [hval, Nat.add_mul_mod_self_left] at h
    have hlo : M64 + old - d < M64 := by omega
    rw [Nat.mod_eq_of_lt hlo] at h
    omega
  · intro h
    have hval : old + (M64 - 1) * d = (old - d) + M64 * d := by omega
    rw [hval, Nat.add_mul_mod_self_left]
    exact Nat.mod_eq_of_lt (by omega)

/-- C10: `update_bucket_stats` returns the GET error with the header
unchanged when the header read fails; on success it adds
`multiplier * delta` to each Main-category counter modulo `2^64`, where the
multiplier is `1` for addition and `(uint64_t)-1` for subtraction — so
subtraction is exact precisely when each old counter is at least its
delta, and wraps otherwise. -/
theorem C10_update_bucket_stats_spec (stats : StatsIdx) (owner bucket : String)
    (size actual_size num_objects : Nat) (h : BCatStats)
    (hb1 : h.num_entries < M64) (hb2 : h.total_size < M64) (hb3 : h.actual_size < M64)
    (hd1 : num_objects < M64) (hd2 : size < M64) (hd3 : actual_size < M64) :
    ((lookupStats stats owner bucket = none →
      ∀ add_stats, update_bucket_stats stats owner bucket size actual_size num_objects add_stats
        = (-ENOENT, stats)))
    ∧ (lookupStats stats owner bucket = some h →
        -- addition
        (update_bucket_stats stats owner bucket size actual_size num_objects true
          = (0, putStats stats owner bucket
              { num_entries := (h.num_entries + num_objects) % M64
                total_size := (h.total_size + size) % M64
                actual_size := (h.actual_size + actual_size) % M64 }))
        -- subtraction: written counters and exactness characterisation
        ∧ ∃ h' : BCatStats,
            update_bucket_stats stats owner bucket size actual_size num_objects false
              = (0, putStats stats owner bucket h')
            ∧ lookupStats (update_bucket_stats stats owner bucket size actual_size
                num_objects false).2 owner bucket = some h'
            ∧ h'.num_entries = (h.num_entries + (M64 - 1) * num_objects) % M64
            ∧ h'.total_size = (h.total_size + (M64 - 1) * size) % M64
            ∧ h'.actual_size = (h.actual_size + (M64 - 1) * actual_size) % M64
            ∧ (h'.num_entries = h.num_entries - num_objects ↔ num_objects ≤ h.num_entries)
            ∧ (h'.total_size = h.total_size - size ↔ size ≤ h.total_size)
            ∧ (h'.actual_size = h.actual_size - actual_size ↔ actual_size ≤ h.actual_size)) := by
  constructor
  · intro hnone add_stats
    unfold update_bucket_stats
    rw [hnone]
  · intro hsome
    refine ⟨?_, ?_⟩
    · unfold update_bucket_stats
      rw [hsome]
      simp
    · refine ⟨{ num_entries := (h.num_entries + (M64 - 1) * num_objects) % M64
                total_size := (h.total_size + (M64 - 1) * size) % M64
                actual_size := (h.actual_size + (M64 - 1) * actual_size) % M64 },
        ?_, ?_, rfl, rfl, rfl, ?_, ?_, ?_⟩
      · unfold update_bucket_stats
        rw [hsome]
        rfl
      · unfold update_bucket_stats
        rw [hsome]
        exact lookupStats_putStats stats owner bucket _
      · exact wrap_sub_iff _ _ hb1 hd1
      · exact wrap_sub_iff _ _ hb2 hd2
      · exact wrap_sub_iff _ _ hb3 hd3

/-- Witness for `C10_update_bucket_stats_spec` on a one-entry stats index. -/
theorem C10_update_bucket_stats_spec_witness :
    ((⟨10, 5000, 6000⟩ : BCatStats).num_entries < M64
      ∧ (⟨10, 5000, 6000⟩ : BCatStats).total_size < M64
      ∧ (⟨10, 5000, 6000⟩ : BCatStats).actual_size < M64
      ∧ 1 < M64 ∧ 100 < M64 ∧ 128 < M64)
    ∧ ((lookupStats [(("u", "b"), ⟨10, 5000, 6000⟩)] "u" "b" = none →
        ∀ add_stats, update_bucket_stats [(("u", "b"), ⟨10, 5000, 6000⟩)] "u" "b" 100 128 1 add_stats
          = (-ENOENT, [(("u", "b"), ⟨10, 5000, 6000⟩)]))
      ∧ (lookupStats [(("u", "b"), ⟨10, 5000, 6000⟩)] "u" "b" = some ⟨10, 5000, 6000⟩ →
          (update_bucket_stats [(("u", "b"), ⟨10, 5000, 6000⟩)] "u" "b" 100 128 1 true
            = (0, putStats [(("u", "b"), ⟨10, 5000, 6000⟩)] "u" "b"
                { num_entries := ((⟨10, 5000, 6000⟩ : BCatStats).num_entries + 1) % M64
                  total_size := ((⟨10, 5000, 6000⟩ : BCatStats).total_size + 100) % M64
                  actual_size := ((⟨10, 5000, 6000⟩ : BCatStats).actual_size + 128) % M64 }))
          ∧ ∃ h' : BCatStats,
              update_bucket_stats [(("u", "b"), ⟨10, 5000, 6000⟩)] "u" "b" 100 128 1 false
                = (0, putStats [(("u", "b"), ⟨10, 5000, 6000⟩)] "u" "b" h')
              ∧ lookupStats (update_bucket_stats [(("u", "b"), ⟨10, 5000, 6000⟩)] "u" "b"
                  100 128 1 false).2 "u" "b" = some h'
              ∧ h'.num_entries = ((⟨10, 5000, 6000⟩ : BCatStats).num_entries + (M64 - 1) * 1) % M64
              ∧ h'.total_size = ((⟨10, 5000, 6000⟩ : BCatStats).total_size + (M64 - 1) * 100) % M64
              ∧ h'.actual_size = ((⟨10, 5000, 6000⟩ : BCatStats).actual_size + (M64 - 1) * 128) % M64
              ∧ (h'.num_entries = (⟨10, 5000, 6000⟩ : BCatStats).num_entries - 1 ↔
                  1 ≤ (⟨10, 5000, 6000⟩ : BCatStats).num_entries)
              ∧ (h'.total_size = (⟨10, 5000, 6000⟩ : BCatStats).total_size - 100 ↔
                  100 ≤ (⟨10, 5000, 6000⟩ : BCatStats).total_size)
              ∧ (h'.actual_size = (⟨10, 5000, 6000⟩ : BCatStats).actual_size - 128 ↔
                  128 ≤ (⟨10, 5000, 6000⟩ : BCatStats).actual_size))) :=
  ⟨⟨by decide, by decide, by decide, by decide, by decide, by decide⟩,
    C10_update_bucket_stats_spec [(("u", "b"), ⟨10, 5000, 6000⟩)] "u" "b" 100 128 1
      ⟨10, 5000, 6000⟩ (by decide) (by decide) (by decide) (by decide) (by decide) (by decide)⟩

/-! ## C6 — multipart-complete etag (`MotrMultipartUpload::complete`,
rgw_sal_motr.cc:4786-4937)

The part-validation loop and the MD5-of-MD5s etag.  The parts come from
`list_parts` through a `std::map<uint32_t, ...>`, i.e. in ascending part
number; here they are a list in that iteration order.  `MD5` is an external
primitive and is a parameter.  `hex_to_buf`/`buf_to_hex` and
`rgw_string_unquote` are external ceph helpers modelled from their standard
semantics (hex codec over bytes; quote stripping). -/

/-- Value of a hexadecimal digit character (0 for non-digits, as
`hex_to_buf` treats them as errors we never hit). -/
def hexDigitVal (c : Char) : Nat :=
  if '0' ≤ c ∧ c ≤ '9' then c.toNat - 48
  else if 'a' ≤ c ∧ c ≤ 'f' then c.toNat - 87
  else if 'A' ≤ c ∧ c ≤ 'F' then c.toNat - 55
  else 0

/-- `hex_to_buf(src, dest, len)`: the first `2*len` hex characters of `s`
as `len` bytes. -/
def hex_to_buf (s : String) (len : Nat) : List Nat :=
  (List.range len).map (fun i =>
    16 * hexDigitVal (s.toList.getD (2 * i) '0') + hexDigitVal (s.toList.getD (2 * i + 1) '0'))

/-- The lower-case hex digit character for `n < 16` (digits then
`'a'..'f'`, as `%02x` prints). -/
def hexChar (n : Nat) : Char :=
  if n < 10 then Char.ofNat (48 + n) else Char.ofNat (87 + n)

/-- `buf_to_hex`: bytes to lower-case hexadecimal. -/
def buf_to_hex (l : List Nat) : String :=
  ⟨(l.map (fun b => [hexChar (b % 256 / 16), hexChar (b % 16)])).flatten⟩

/-- `rgw_string_unquote`: strips one level of surrounding double quotes. -/
def rgw_string_unquote (s : String) : String :=
  if 2 ≤ s.length ∧ s.toList.getD 0 ' ' = '"' ∧ s.toList.getLast? = some '"' then
    ⟨(s.toList.drop 1).dropLast⟩
  else s

/-- The stored `RGWUploadPartInfo` fields `complete` reads. -/
structure RGWUploadPartInfo where
  num : Nat
  etag : String
  accounted_size : Nat
  cs_type : String
deriving DecidableEq

/-- The per-part validation loop of `MotrMultipartUpload::complete`
(rgw_sal_motr.cc:4835-4905): walks the requested `(num, etag)` pairs and
the stored parts together; checks the non-last-part minimum size, the part
numbers, the (unquoted) etags and the compression consistency, and
accumulates `hex_to_buf(part->etag, 16)` into the MD5 input buffer.
`i` is `handled_parts`, `n` is `part_etags.size()`; `compressed` and
`cs_type` carry the caller's compression state. -/
def complete_loop (min_part_size n : Nat) :
    List (Nat × String) → List (Nat × RGWUploadPartInfo) → Nat → Bool → String →
    List Nat → Except Int (List Nat)
  | [], _, _, _, _, acc => .ok acc
  | _ :: _, [], _, _, _, acc => .ok acc
  | (enum, etag) :: etags, (_, part) :: parts, i, compressed, cs_type, acc =>
    if i < n - 1 ∧ part.accounted_size < min_part_size then .error (-ERR_TOO_SMALL)
    else if enum ≠ part.num then .error (-ERR_INVALID_PART)
    else if rgw_string_unquote etag ≠ part.etag then .error (-ERR_INVALID_PART)
    else
      let part_compressed := part.cs_type ≠ "none"
      if 0 < i ∧ (part_compressed ≠ (compressed = true) ∨ cs_type ≠ part.cs_type) then
        .error (-ERR_INVALID_PART)
      else
        complete_loop min_part_size n etags parts (i + 1)
          (compressed || decide part_compressed)
          (if part_compressed ∧ !compressed then part.cs_type else cs_type)
          (acc ++ hex_to_buf part.etag 16)

/-- The etag computation of `MotrMultipartUpload::complete`
(rgw_sal_motr.cc:4817-4937, single `list_parts` batch): after the
total-count check and the validation loop, the final etag is the
hex-encoded MD5 of the accumulated buffer with `-<part-count>` appended
(`snprintf(..., "-%lld", part_etags.size())`); it is stored into the final
dir entry's `meta.etag`. -/
def multipart_complete_etag (md5 : List Nat → List Nat) (min_part_size : Nat)
    (part_etags : List (Nat × String)) (parts : List (Nat × RGWUploadPartInfo)) :
    Except Int String :=
  if parts.length ≠ part_etags.length then .error (-ERR_INVALID_PART)
  else
    match complete_loop min_part_size part_etags.length part_etags parts 0 false "none" [] with
    | .error e => .error e
    | .ok buf => .ok (buf_to_hex (md5 buf) ++ "-" ++ toString part_etags.length)

theorem complete_loop_ok_append (min_part_size n : Nat) :
    ∀ (etags : List (Nat × String)) (parts : List (Nat × RGWUploadPartInfo))
      (i : Nat) (c : Bool) (t : String) (acc out : List Nat),
      etags.length = parts.length →
      complete_loop min_part_size n etags parts i c t acc = .ok out →
      out = acc ++ (parts.map (fun p => hex_to_buf p.2.etag 16)).flatten := by
  intro etags
  induction etags with
  | nil =>
    intro parts i c t acc out hlen hok
    have : parts = [] := List.length_eq_zero.mp hlen.symm
    subst this
    simp only [complete_loop] at hok
    cases hok
    simp
  | cons e etags ih =>
    intro parts i c t acc out hlen hok
    cases parts with
    | nil => exact absurd hlen (by simp)
    | cons p parts =>
      obtain ⟨enum, etag⟩ := e
      obtain ⟨pnum, part⟩ := p
      simp only [complete_loop] at hok
      by_cases h1 : i < n - 1 ∧ part.accounted_size < min_part_size
      · rw [if_pos h1] at hok; cases hok
      rw [if_neg h1] at hok
      by_cases h2 : enum ≠ part.num
      · rw [if_pos h2] at hok; cases hok
      rw [if_neg h2] at hok
      by_cases h3 : rgw_string_unquote etag ≠ part.etag
      · rw [if_pos h3] at hok; cases hok
      rw [if_neg h3] at hok
      by_cases h4 : 0 < i ∧ ((part.cs_type ≠ "none") ≠ (c = true) ∨ t ≠ part.cs_type)
      · rw [if_pos h4] at hok; cases hok
      rw [if_neg h4] at hok
      have := ih parts (i + 1) _ _ _ out (by simpa using hlen) hok
      rw [this]
      simp

/-- C6: for every completed multipart upload with stored parts `P1..Pn`
(ascending part number), the final etag equals the hexadecimal MD5 of the
concatenation of the hex-decoded (binary) etags of `P1..Pn`, followed by
`-` and the part count `n`. -/
theorem C6_multipart_complete_etag (md5 : List Nat → List Nat) (min_part_size : Nat)
    (part_etags : List (Nat × String)) (parts : List (Nat × RGWUploadPartInfo))
    (etag : String)
    (_hasc : parts.Chain' (fun a b => a.1 < b.1))
    (hok : multipart_complete_etag md5 min_part_size part_etags parts = .ok etag) :
    etag = buf_to_hex (md5 ((parts.map (fun p => hex_to_buf p.2.etag 16)).flatten))
        ++ "-" ++ toString parts.length
    ∧ parts.length = part_etags.length := by
  unfold multipart_complete_etag at hok
  by_cases hlen : parts.length ≠ part_etags.length
  · rw [if_pos hlen] at hok; cases hok
  rw [if_neg hlen] at hok
  push_neg at hlen
  cases hcall : complete_loop min_part_size part_etags.length part_etags parts 0 false "none" [] with
  | error e => rw [hcall] at hok; cases hok
  | ok buf =>
    rw [hcall] at hok
    have hbuf := complete_loop_ok_append min_part_size part_etags.length part_etags parts
      0 false "none" [] buf hlen.symm hcall
    simp only [List.nil_append] at hbuf
    cases hok
    subst hbuf
    exact ⟨by rw [hlen], hlen⟩

/-- Concrete two-part upload used as the `C6` witness. -/
def c6parts : List (Nat × RGWUploadPartInfo) :=
  [(1, { num := 1, etag := "00112233445566778899aabbccddeeff",
         accounted_size := 100, cs_type := "none" }),
   (2, { num := 2, etag := "ffeeddccbbaa99887766554433221100",
         accounted_size := 50, cs_type := "none" })]

/-- The client-supplied part list of the `C6` witness. -/
def c6etags : List (Nat × String) :=
  [(1, "00112233445566778899aabbccddeeff"), (2, "ffeeddccbbaa99887766554433221100")]

/-- The etag `complete` produces on the `C6` witness upload (with `md5`
instantiated by the identity function). -/
def c6result : String :=
  "00112233445566778899aabbccddeeffffeeddccbbaa99887766554433221100-2"

/-- Witness for `C6_multipart_complete_etag`: two parts, `md5` instantiated
with an arbitrary concrete function (the identity on the buffer). -/
theorem C6_multipart_complete_etag_witness :
    (c6parts.Chain' (fun a b => a.1 < b.1)
      ∧ multipart_complete_etag (fun l => l) 0 c6etags c6parts = .ok c6result)
    ∧ (c6result = buf_to_hex ((fun l => l)
          ((c6parts.map (fun p => hex_to_buf p.2.etag 16)).flatten))
        ++ "-" ++ toString c6parts.length
      ∧ c6parts.length = c6etags.length) :=
  ⟨⟨by simp [c6parts], by rfl⟩,
    C6_multipart_complete_etag (fun l => l) 0 c6etags c6parts c6result
      (by simp [c6parts]) (by rfl)⟩

/-! ## Bucket-index keys

Bucket-index keys are byte strings `<name> SEP <instance>` with
`SEP = 0x07` (`'\a'`); keys are modelled as `List Char` and the index
service's NEXT enumeration uses their lexicographic order. -/

/-- The reserved separator byte `'\a'` (0x07). -/
def SEP : Char := Char.ofNat 7

/-- Index keys. -/
abbrev Key := List Char

/-- Strict lexicographic comparison of keys, as the index service orders
them. -/
def keyLt : Key → Key → Bool
  | [], [] => false
  | [], _ :: _ => true
  | _ :: _, [] => false
  | a :: as, b :: bs => if a < b then true else if b < a then false else keyLt as bs

/-- `a ≤ b` on keys. -/
def keyLe (a b : Key) : Bool := !(keyLt b a)

theorem keyLt_irrefl : ∀ a : Key, keyLt a a = false := by
  intro a
  induction a with
  | nil => rfl
  | cons c a ih =>
    show (if c < c then true else if c < c then false else keyLt a a) = false
    rw [if_neg (lt_irrefl c), if_neg (lt_irrefl c)]
    exact ih

theorem keyLt_asymm : ∀ a b : Key, keyLt a b = true → keyLt b a = false := by
  intro a
  induction a with
  | nil =>
    intro b h
    cases b with
    | nil => exact absurd h (by simp [keyLt])
    | cons c bs => rfl
  | cons c as ih =>
    intro b h
    cases b with
    | nil => exact absurd h (by simp [keyLt])
    | cons d bs =>
      show (if d < c then true else if c < d then false else keyLt bs as) = false
      by_cases hdc : d < c
      · exfalso
        have : keyLt (c :: as) (d :: bs) = false := by
          show (if c < d then true else if d < c then false else keyLt as bs) = false
          rw [if_neg (asymm hdc), if_pos hdc]
        rw [h] at this
        cases this
      · rw [if_neg hdc]
        by_cases hcd : c < d
        · rw [if_pos hcd]
        · rw [if_neg hcd]
          have hab : keyLt as bs = true := by
            rwa [show keyLt (c :: as) (d :: bs)
              = (if c < d then true else if d < c then false else keyLt as bs) from rfl,
              if_neg hcd, if_neg hdc] at h
          exact ih bs hab

/-- A key with prefix `p` is never below `p`. -/
theorem keyLt_append_self (p s : Key) : keyLt (p ++ s) p = false := by
  induction p with
  | nil =>
    cases s with
    | nil => rfl
    | cons c t => rfl
  | cons c p ih =>
    show (if c < c then true else if c < c then false else keyLt (p ++ s) p) = false
    rw [if_neg (lt_irrefl c), if_neg (lt_irrefl c)]
    exact ih

/-- If `p ≤ k` but `p` is not a prefix of `k`, then `k` is above every
extension of `p`. -/
theorem keyLt_ext_of_not_prefix :
    ∀ (p k : Key), keyLe p k = true → ¬ p <+: k → ∀ s, keyLt (p ++ s) k = true := by
  intro p
  induction p with
  | nil => intro k _ hpre; exact absurd List.nil_prefix hpre
  | cons a p ih =>
    intro k hle hpre s
    cases k with
    | nil =>
      exfalso
      have : keyLt [] (a :: p) = true := rfl
      unfold keyLe at hle
      rw [this] at hle
      cases hle
    | cons b k =>
      show (if a < b then true else if b < a then false else keyLt (p ++ s) k) = true
      by_cases hab : a < b
      · rw [if_pos hab]
      · rw [if_neg hab]
        by_cases hba : b < a
        · exfalso
          have : keyLt (b :: k) (a :: p) = true := by
            show (if b < a then true else if a < b then false else keyLt k p) = true
            rw [if_pos hba]
          unfold keyLe at hle
          rw [this] at hle
          cases hle
        · rw [if_neg hba]
          have heq : a = b := le_antisymm (not_lt.mp hba) (not_lt.mp hab)
          subst heq
          have hle' : keyLe p k = true := by
            unfold keyLe at hle ⊢
            rwa [show keyLt (a :: k) (a :: p)
              = (if a < a then true else if a < a then false else keyLt k p) from rfl,
              if_neg (lt_irrefl a), if_neg (lt_irrefl a)] at hle
          have hpre' : ¬ p <+: k := by
            intro hp
            exact hpre (List.cons_prefix_cons.mpr ⟨rfl, hp⟩)
          exact ih k hle' hpre' s

/-- Any extension of `p` is at least `p`. -/
theorem keyLe_append (p s : Key) : keyLe p (p ++ s) = true := by
  unfold keyLe
  rw [keyLt_append_self]
  rfl

/-- Splitting at the (first) separator is unambiguous: names are
separator-free. -/
theorem sep_split_unique :
    ∀ (n1 n2 r1 r2 : Key), SEP ∉ n1 → SEP ∉ n2 →
      n1 ++ SEP :: r1 = n2 ++ SEP :: r2 → n1 = n2 ∧ r1 = r2 := by
  intro n1
  induction n1 with
  | nil =>
    intro n2 r1 r2 _ hn2 heq
    cases n2 with
    | nil => simpa using heq
    | cons c n2 =>
      exfalso
      have : SEP = c := by simpa using congrArg (fun l => l.headI) heq
      exact hn2 (this ▸ List.mem_cons_self c n2)
  | cons c n1 ih =>
    intro n2 r1 r2 hn1 hn2 heq
    cases n2 with
    | nil =>
      exfalso
      have : c = SEP := by simpa using congrArg (fun l => l.headI) heq
      exact hn1 (this ▸ List.mem_cons_self c n1)
    | cons d n2 =>
      have hcd : c = d := by simpa using congrArg (fun l => l.headI) heq
      subst hcd
      have htl : n1 ++ SEP :: r1 = n2 ++ SEP :: r2 := by simpa using heq
      have h1 : SEP ∉ n1 := fun h => hn1 (List.mem_cons_of_mem c h)
      have h2 : SEP ∉ n2 := fun h => hn2 (List.mem_cons_of_mem c h)
      obtain ⟨he, hr⟩ := ih n2 r1 r2 h1 h2 htl
      exact ⟨by rw [he], hr⟩

/-! ## Bucket-index records and object resolution (C2, C3)

`rgw_bucket_dir_entry + attrs + MotrObjectMeta` index values as a typed
record (encode/decode is the identity); the `rgw_bucket_dir_entry` flag
bits `VER`, `CURRENT`, `DELETE_MARKER` are Booleans. -/

/-- `RGWObjCategory` values the code distinguishes. -/
inductive ObjCategory
  | Main
  | MultiMeta
deriving DecidableEq

/-- One bucket-index record: the `rgw_bucket_dir_entry` fields the embedded
functions read, together with the appended `MotrObjectMeta` fields
(`oid`, the unit size derived from `layout_id`, `is_composite`) and the
upload id carried in `meta.user_data` for multipart objects. -/
structure Dirent where
  name : Key
  inst : Key
  mtime : Nat
  size : Nat
  etag : String
  owner : String
  category : ObjCategory
  flag_ver : Bool
  flag_current : Bool
  flag_delete_marker : Bool
  oid : Nat
  unit_sz : Nat
  is_composite : Bool
  upload_id : String
deriving DecidableEq

/-- The bucket-index key of a record: `<name> SEP <instance>`. -/
def entKey (e : Dirent) : Key := e.name ++ SEP :: e.inst

/-- A bucket index: key-ordered `(key, record)` pairs. -/
abbrev BucketIdx := List (Key × Dirent)

/-- Association lookup (`M0_IC_GET`). -/
def assocGet (idx : BucketIdx) (k : Key) : Option Dirent :=
  (idx.find? (fun p => p.1 == k)).map Prod.snd

/-- `MotrStore::next_query_by_name` with no prefix/delimiter
(rgw_sal_motr.cc:6032-6113) on a sorted index: the first `max` entries
whose key is `≥ start`. -/
def next_query (idx : BucketIdx) (start : Key) (max : Nat) : List (Key × Dirent) :=
  (idx.filter (fun p => keyLe start p.1)).take max

/-- The record-selection loop of `MotrObject::fetch_latest_obj`
(rgw_sal_motr.cc:3761-3780): walk the returned records; stop at the first
whose name differs; remember the first record (`null_ent`); stop when the
first record is strictly newer than the current one; the last record
walked over is the result (`bl_out`). -/
def fetch_loop (name : Key) : List Dirent → Option Dirent → Option Dirent → Option Dirent
  | [], _, out => out
  | e :: rest, nullEnt, out =>
    if e.name ≠ name then out
    else
      match nullEnt with
      | none => fetch_loop name rest (some e) (some e)
      | some ne => if ne.mtime > e.mtime then out else fetch_loop name rest (some ne) (some e)

/-- `MotrObject::fetch_latest_obj` (rgw_sal_motr.cc:3738-3783): a NEXT
query of limit 2 starting at `<name> SEP`, then the selection loop;
`-ENOENT` when the query returns nothing or no usable record remains. -/
def fetch_latest_obj (idx : BucketIdx) (name : Key) : Except Int Dirent :=
  let rets := next_query idx (name ++ [SEP]) 2
  if rets.length = 0 then .error (-ENOENT)
  else
    match fetch_loop name (rets.map Prod.snd) none none with
    | none => .error (-ENOENT)
    | some e => .ok e

/-- `MotrObject::get_key_str` (rgw_sal_motr.cc:3726-3733). -/
def get_key_str (name inst : Key) : Key :=
  if inst = [] ∨ inst = "null".toList then name ++ [SEP]
  else name ++ SEP :: inst

/-- `MotrObject::get_bucket_dir_ent` (rgw_sal_motr.cc:3785-3845), with the
metadata cache modelled as a miss: an explicit instance is fetched directly
at `get_key_str` (and an explicit `"null"` instance is rewritten into the
returned entry's instance, rgw_sal_motr.cc:3826-3827); otherwise the
newest record is resolved through `fetch_latest_obj`. -/
def get_bucket_dir_ent (idx : BucketIdx) (name inst : Key) : Except Int Dirent :=
  if inst ≠ [] then
    match assocGet idx (get_key_str name inst) with
    | none => .error (-ENOENT)
    | some e =>
        .ok (if inst = "null".toList then { e with inst := "null".toList } else e)
  else
    fetch_latest_obj idx name

/-- `MotrObject::MotrReadOp::prepare` (rgw_sal_motr.cc:1946-1969), up to
the delete-marker decision: resolve the record; if it is a delete-marker,
return `-ERR_METHOD_NOT_ALLOWED` when the request's instance equals the
(resolved) record's non-empty instance, else `-ENOENT`. -/
def readop_prepare (idx : BucketIdx) (name inst : Key) : Except Int Dirent :=
  match get_bucket_dir_ent idx name inst with
  | .error e => .error e
  | .ok ent =>
    if ent.flag_delete_marker then
      if inst = ent.inst ∧ ent.inst ≠ [] then .error (-ERR_METHOD_NOT_ALLOWED)
      else .error (-ENOENT)
    else .ok ent

/-- Well-formedness of a bucket index: keys strictly sorted, each key is
its record's `<name> SEP <instance>`, and names are separator-free. -/
structure IdxWf (idx : BucketIdx) : Prop where
  sorted : idx.Pairwise (fun p q => keyLt p.1 q.1 = true)
  keys : ∀ p ∈ idx, p.1 = entKey p.2
  names : ∀ p ∈ idx, SEP ∉ p.2.name

theorem next_query_mem {idx : BucketIdx} {start : Key} {max : Nat} {p : Key × Dirent}
    (h : p ∈ next_query idx start max) : p ∈ idx ∧ keyLe start p.1 = true := by
  unfold next_query at h
  have h1 : p ∈ (idx.filter (fun p => keyLe start p.1)) :=
    (List.take_sublist max _).mem h
  exact ⟨(List.filter_sublist _).mem h1, by simpa using (List.mem_filter.mp h1).2⟩

theorem next_query_pairwise {idx : BucketIdx} (hwf : IdxWf idx) (start : Key) (max : Nat) :
    (next_query idx start max).Pairwise (fun p q => keyLt p.1 q.1 = true) := by
  unfold next_query
  exact List.Pairwise.sublist ((List.take_sublist max _).trans (List.filter_sublist _))
    hwf.sorted

/-- Under well-formedness, a returned record with a different name can only
come after all records of the requested name: if the second returned record
has the requested name, so does the first. -/
theorem rets_first_name {idx : BucketIdx} (hwf : IdxWf idx) {name : Key}
    (hname : SEP ∉ name) {r1 r2 : Key × Dirent} {rest : List (Key × Dirent)}
    (hr : next_query idx (name ++ [SEP]) 2 = r1 :: r2 :: rest)
    (h2 : r2.2.name = name) : r1.2.name = name := by
  have hm1 : r1 ∈ next_query idx (name ++ [SEP]) 2 := by rw [hr]; exact List.mem_cons_self _ _
  have hm2 : r2 ∈ next_query idx (name ++ [SEP]) 2 := by
    rw [hr]; exact List.mem_cons_of_mem _ (List.mem_cons_self _ _)
  obtain ⟨hi1, hle1⟩ := next_query_mem hm1
  obtain ⟨hi2, _⟩ := next_query_mem hm2
  have hk1 : r1.1 = entKey r1.2 := hwf.keys r1 hi1
  have hk2 : r2.1 = entKey r2.2 := hwf.keys r2 hi2
  have hn1 : SEP ∉ r1.2.name := hwf.names r1 hi1
  have hsort : keyLt r1.1 r2.1 = true := by
    have := next_query_pairwise hwf (name ++ [SEP]) 2
    rw [hr] at this
    exact (List.pairwise_cons.mp this).1 r2 (List.mem_cons_self _ _)
  by_contra hne
  have hpre : ¬ (name ++ [SEP]) <+: r1.1 := by
    intro hp
    obtain ⟨t, ht⟩ := hp
    rw [hk1] at ht
    unfold entKey at ht
    rw [List.append_assoc, List.singleton_append] at ht
    obtain ⟨he, _⟩ := sep_split_unique name r1.2.name t r1.2.inst hname hn1 ht
    exact hne he.symm
  have hext := keyLt_ext_of_not_prefix (name ++ [SEP]) r1.1 hle1 hpre r2.2.inst
  have hr2key : (name ++ [SEP]) ++ r2.2.inst = r2.1 := by
    rw [hk2]
    unfold entKey
    rw [List.append_assoc, List.singleton_append, h2]
  rw [hr2key] at hext
  have := keyLt_asymm _ _ hsort
  rw [hext] at this
  cases this

/-- C2: a GET/HEAD without an explicit version instance resolves through a
NEXT of limit 2 starting at `<name> SEP`; among the returned records those
with a different name are ignored; the chosen record has the requested
name and the maximal mtime among the returned records of that name (so a
null-version record, which sorts first, is superseded by a later versioned
record); if no returned record has the requested name, resolution fails
with `-ENOENT`. -/
theorem C2_fetch_latest (idx : BucketIdx) (hwf : IdxWf idx) (name : Key)
    (hname : SEP ∉ name) :
    get_bucket_dir_ent idx name [] = fetch_latest_obj idx name
    ∧ (fetch_latest_obj idx name = .error (-ENOENT) ↔
        ∀ p ∈ next_query idx (name ++ [SEP]) 2, p.2.name ≠ name)
    ∧ (∀ e, fetch_latest_obj idx name = .ok e →
        e.name = name
        ∧ (∃ p ∈ next_query idx (name ++ [SEP]) 2, p.2 = e)
        ∧ ∀ p ∈ next_query idx (name ++ [SEP]) 2, p.2.name = name →
            p.2.mtime ≤ e.mtime) := by
  refine ⟨rfl, ?_⟩
  have hlen2 : (next_query idx (name ++ [SEP]) 2).length ≤ 2 := by
    unfold next_query
    exact List.length_take_le 2 _
  cases hrets : next_query idx (name ++ [SEP]) 2 with
  | nil =>
    have hfetch : fetch_latest_obj idx name = .error (-ENOENT) := by
      unfold fetch_latest_obj
      rw [hrets]
      rfl
    refine ⟨⟨fun _ p hp => absurd hp (List.not_mem_nil p), fun _ => hfetch⟩, ?_⟩
    intro e he
    rw [hfetch] at he
    cases he
  | cons r1 tail =>
    cases tail with
    | nil =>
      -- one record returned
      by_cases hn : r1.2.name = name
      · have hfetch : fetch_latest_obj idx name = .ok r1.2 := by
          unfold fetch_latest_obj
          rw [hrets]
          simp [fetch_loop, hn]
        refine ⟨⟨fun habs => ?_, fun hall => ?_⟩, fun e he => ?_⟩
        · rw [hfetch] at habs; cases habs
        · exact absurd hn (hall r1 (List.mem_cons_self _ _))
        · rw [hfetch] at he
          cases he
          refine ⟨hn, ⟨r1, List.mem_cons_self _ _, rfl⟩, ?_⟩
          intro p hp _
          rcases List.mem_cons.mp hp with h | h
          · subst h; exact le_rfl
          · exact absurd h (List.not_mem_nil p)
      · have hfetch : fetch_latest_obj idx name = .error (-ENOENT) := by
          unfold fetch_latest_obj
          rw [hrets]
          simp [fetch_loop, hn]
        refine ⟨⟨fun _ p hp => ?_, fun _ => hfetch⟩, fun e he => ?_⟩
        · rcases List.mem_cons.mp hp with h | h
          · subst h; exact hn
          · exact absurd h (List.not_mem_nil p)
        · rw [hfetch] at he
          cases he
    | cons r2 tail2 =>
      cases tail2 with
      | cons r3 rest =>
        exfalso
        rw [hrets] at hlen2
        simp at hlen2
      | nil =>
        -- two records returned
        by_cases hn1 : r1.2.name = name
        · by_cases hn2 : r2.2.name = name
          · -- both match: the one with maximal mtime is chosen
            have hfetch : fetch_latest_obj idx name
                = .ok (if r1.2.mtime > r2.2.mtime then r1.2 else r2.2) := by
              unfold fetch_latest_obj
              rw [hrets]
              by_cases hmt : r1.2.mtime > r2.2.mtime
              · simp [fetch_loop, hn1, hn2, hmt]
              · simp [fetch_loop, hn1, hn2, hmt]
            refine ⟨⟨fun habs => ?_, fun hall => ?_⟩, fun e he => ?_⟩
            · rw [hfetch] at habs; cases habs
            · exact absurd hn1 (hall r1 (List.mem_cons_self _ _))
            · rw [hfetch] at he
              cases he
              by_cases hmt : r1.2.mtime > r2.2.mtime
              · rw [if_pos hmt]
                refine ⟨hn1, ⟨r1, List.mem_cons_self _ _, rfl⟩, ?_⟩
                intro p hp _
                rcases List.mem_cons.mp hp with h | h
                · subst h; exact le_rfl
                rcases List.mem_cons.mp h with h' | h'
                · subst h'; omega
                · exact absurd h' (List.not_mem_nil p)
              · rw [if_neg hmt]
                have hmem2 : r2 ∈ [r1, r2] :=
                  List.mem_cons_of_mem _ (List.mem_cons_self _ _)
                refine ⟨hn2, ⟨r2, hmem2, rfl⟩, ?_⟩
                intro p hp _
                rcases List.mem_cons.mp hp with h | h
                · subst h; omega
                rcases List.mem_cons.mp h with h' | h'
                · subst h'; exact le_rfl
                · exact absurd h' (List.not_mem_nil p)
          · -- second record has a different name: the first is chosen
            have hfetch : fetch_latest_obj idx name = .ok r1.2 := by
              unfold fetch_latest_obj
              rw [hrets]
              simp [fetch_loop, hn1, hn2]
            refine ⟨⟨fun habs => ?_, fun hall => ?_⟩, fun e he => ?_⟩
            · rw [hfetch] at habs; cases habs
            · exact absurd hn1 (hall r1 (List.mem_cons_self _ _))
            · rw [hfetch] at he
              cases he
              refine ⟨hn1, ⟨r1, List.mem_cons_self _ _, rfl⟩, ?_⟩
              intro p hp hpn
              rcases List.mem_cons.mp hp with h | h
              · subst h; exact le_rfl
              rcases List.mem_cons.mp h with h' | h'
              · subst h'; exact absurd hpn hn2
              · exact absurd h' (List.not_mem_nil p)
        · -- first record has a different name: under well-formedness the
          -- second cannot match either, and resolution fails
          have hn2 : r2.2.name ≠ name := fun h2 => hn1 (rets_first_name hwf hname hrets h2)
          have hfetch : fetch_latest_obj idx name = .error (-ENOENT) := by
            unfold fetch_latest_obj
            rw [hrets]
            simp [fetch_loop, hn1]
          refine ⟨⟨fun _ p hp => ?_, fun _ => hfetch⟩, fun e he => ?_⟩
          · rcases List.mem_cons.mp hp with h | h
            · subst h; exact hn1
            rcases List.mem_cons.mp h with h' | h'
            · subst h'; exact hn2
            · exact absurd h' (List.not_mem_nil p)
          · rw [hfetch] at he
            cases he

/-- A concrete null-version record for the C2/C3 witnesses. -/
def c2ent_null : Dirent :=
  { name := "obj".toList, inst := [], mtime := 10, size := 100, etag := "e1",
    owner := "u", category := .Main, flag_ver := false, flag_current := false,
    flag_delete_marker := false, oid := 1, unit_sz := 4096, is_composite := false,
    upload_id := "" }

/-- A concrete newer versioned record for the C2 witness. -/
def c2ent_v : Dirent :=
  { c2ent_null with
    inst := "abc".toList
    mtime := 20
    flag_ver := true
    flag_current := true
    oid := 2 }

/-- A concrete two-record bucket index (null version first). -/
def c2idx : BucketIdx := [(entKey c2ent_null, c2ent_null), (entKey c2ent_v, c2ent_v)]

theorem c2idx_wf : IdxWf c2idx := by
  refine ⟨?_, ?_, ?_⟩
  · unfold c2idx
    refine List.pairwise_cons.mpr ⟨?_, List.pairwise_singleton _ _⟩
    intro q hq
    rcases List.mem_cons.mp hq with h | h
    · subst h; decide
    · exact absurd h (List.not_mem_nil q)
  · intro p hp
    unfold c2idx at hp
    rcases List.mem_cons.mp hp with h | h
    · subst h; rfl
    rcases List.mem_cons.mp h with h' | h'
    · subst h'; rfl
    · exact absurd h' (List.not_mem_nil p)
  · intro p hp
    unfold c2idx at hp
    rcases List.mem_cons.mp hp with h | h
    · subst h; decide
    rcases List.mem_cons.mp h with h' | h'
    · subst h'; decide
    · exact absurd h' (List.not_mem_nil p)

/-- Witness for `C2_fetch_latest` on `c2idx`. -/
theorem C2_fetch_latest_witness :
    (IdxWf c2idx ∧ SEP ∉ "obj".toList)
    ∧ (get_bucket_dir_ent c2idx "obj".toList [] = fetch_latest_obj c2idx "obj".toList
      ∧ (fetch_latest_obj c2idx "obj".toList = .error (-ENOENT) ↔
          ∀ p ∈ next_query c2idx ("obj".toList ++ [SEP]) 2, p.2.name ≠ "obj".toList)
      ∧ (∀ e, fetch_latest_obj c2idx "obj".toList = .ok e →
          e.name = "obj".toList
          ∧ (∃ p ∈ next_query c2idx ("obj".toList ++ [SEP]) 2, p.2 = e)
          ∧ ∀ p ∈ next_query c2idx ("obj".toList ++ [SEP]) 2,
              p.2.name = "obj".toList → p.2.mtime ≤ e.mtime)) :=
  ⟨⟨c2idx_wf, by decide⟩, C2_fetch_latest c2idx c2idx_wf "obj".toList (by decide)⟩

/-- C3: if the record resolved by a GET/HEAD is a delete-marker, the
request fails with `-ENOENT` when it carries no explicit instance or an
instance different from the marker's, and with `-ERR_METHOD_NOT_ALLOWED`
when its explicit instance equals the marker's non-empty instance. -/
theorem C3_delete_marker_read (idx : BucketIdx) (name inst : Key) (ent : Dirent)
    (hres : get_bucket_dir_ent idx name inst = .ok ent)
    (hdm : ent.flag_delete_marker = true) :
    (inst = [] → readop_prepare idx name inst = .error (-ENOENT))
    ∧ (inst ≠ ent.inst → readop_prepare idx name inst = .error (-ENOENT))
    ∧ (inst = ent.inst → ent.inst ≠ [] →
        readop_prepare idx name inst = .error (-ERR_METHOD_NOT_ALLOWED)) := by
  unfold readop_prepare
  rw [hres]
  simp only [hdm, if_true]
  refine ⟨?_, ?_, ?_⟩
  · intro hinst
    subst hinst
    by_cases hei : ent.inst = []
    · rw [if_neg (by simp [hei])]
    · rw [if_neg (by
        intro hc
        exact hei hc.1.symm)]
  · intro hne
    rw [if_neg (by
      intro hc
      exact hne hc.1)]
  · intro heq hne
    rw [if_pos ⟨heq, hne⟩]

/-- A concrete versioned delete-marker record for the C3 witness. -/
def c3ent_dm : Dirent :=
  { c2ent_null with
    inst := "del1".toList
    mtime := 30
    flag_ver := true
    flag_current := true
    flag_delete_marker := true
    size := 0
    oid := 0 }

/-- A one-record index holding only the delete-marker. -/
def c3idx : BucketIdx := [(entKey c3ent_dm, c3ent_dm)]

/-- Witness for `C3_delete_marker_read`: GET with the delete-marker's own
instance. -/
theorem C3_delete_marker_read_witness :
    (get_bucket_dir_ent c3idx "obj".toList "del1".toList = .ok c3ent_dm
      ∧ c3ent_dm.flag_delete_marker = true)
    ∧ (("del1".toList = ([] : Key) →
        readop_prepare c3idx "obj".toList "del1".toList = .error (-ENOENT))
      ∧ ("del1".toList ≠ c3ent_dm.inst →
          readop_prepare c3idx "obj".toList "del1".toList = .error (-ENOENT))
      ∧ ("del1".toList = c3ent_dm.inst → c3ent_dm.inst ≠ [] →
          readop_prepare c3idx "obj".toList "del1".toList
            = .error (-ERR_METHOD_NOT_ALLOWED))) :=
  ⟨⟨by rfl, by rfl⟩,
    C3_delete_marker_read c3idx "obj".toList "del1".toList c3ent_dm (by rfl) (by rfl)⟩

/-! ## Store state for the mutation paths (C4, C5, C7)

State visible to the delete/PUT/multipart paths: the bucket index, the
per-owner user-stats indices, the per-bucket `multiparts` and
`multiparts.in-progress` indices, the set of existing byte objects (by
oid) and the GC queue.  Index values are typed records; `encode`/`decode`
is the identity. -/

/-- A `multiparts` index value (`RGWUploadPartInfo + attrs +
MotrObjectMeta`): the fields the delete paths read. -/
structure PartRec where
  num : Nat
  size : Nat
  size_rounded : Nat
  oid : Nat
deriving DecidableEq

/-- A `multiparts.in-progress` record (only the upload id is consulted by
the paths modelled here). -/
structure UploadRec where
  upload_id : String
deriving DecidableEq

/-- A GC queue entry (`motr_gc_obj_info`): tag and object size. -/
structure GcRec where
  tag : String
  size : Nat
deriving DecidableEq

/-- The store state. -/
structure MotrState where
  bucket_index : BucketIdx
  user_stats : StatsIdx
  multiparts : List (Key × PartRec)
  inprogress : List (Key × UploadRec)
  motr_objs : List Nat
  gc_queue : List GcRec
deriving DecidableEq

/-- Generic association-list GET. -/
def aGet {α : Type} (idx : List (Key × α)) (k : Key) : Option α :=
  (idx.find? (fun p => p.1 == k)).map Prod.snd

/-- Generic association-list PUT (overwrite; the list represents a map). -/
def aPut {α : Type} (idx : List (Key × α)) (k : Key) (v : α) : List (Key × α) :=
  (k, v) :: idx.filter (fun p => !(p.1 == k))

/-- Generic association-list DEL: `-ENOENT` when the key is absent. -/
def aDel {α : Type} (idx : List (Key × α)) (k : Key) : Int × List (Key × α) :=
  if idx.any (fun p => p.1 == k) then (0, idx.filter (fun p => !(p.1 == k)))
  else (-ENOENT, idx)

/-- `"%08d"`-style zero-padded decimal (`snprintf(buf, ..., ".%08d", n)`). -/
def pad8 (n : Nat) : Key :=
  List.replicate (8 - (toString n).length) '0' ++ (toString n).toList

/-- A NEXT query with a prefix (`next_query_by_name` with non-empty
`prefix`): the first `max` entries at or after `start` whose key carries
the prefix (enumeration stops at the first key outside the prefix). -/
def next_query_pfx (idx : List (Key × PartRec)) (start pfx : Key) (max : Nat) :
    List (Key × PartRec) :=
  (((idx.filter (fun p => keyLe start p.1)).takeWhile (fun p => pfx.isPrefixOf p.1)).take max)

/-- `MotrMultipartUpload::list_parts` (rgw_sal_motr.cc:4689-4783) for one
batch, with the effective upload id already resolved (the code re-derives
it from the bucket index when its member is empty; the bucket index is not
modified between those derivations, so the value is fixed): NEXT on the
`multiparts` index from `<key>.<upload-id>.<marker+1 padded>` under prefix
`<key>.<upload-id>`; keeps the records with `num > marker`; `truncated`
when the batch filled up; `next_marker` is the last kept part number. -/
def list_parts (mpidx : List (Key × PartRec)) (obj_key : Key) (uid : String)
    (num_parts marker : Nat) : Int × List PartRec × Nat × Bool :=
  if num_parts = 0 then (0, [], 0, false)
  else
    let pfx := obj_key ++ '.' :: uid.toList
    let start := pfx ++ '.' :: pad8 (marker + 1)
    let rets := next_query_pfx mpidx start pfx num_parts
    let parts := (rets.map Prod.snd).filter (fun info => marker < info.num)
    (0, parts, (parts.map (fun i => i.num)).getLastD 0, rets.length ≥ num_parts)

/-- The per-part body of the `delete_parts` scan
(rgw_sal_motr.cc:4444-4473): accumulate each part's size and rounded size;
in the separate-part strategy delete the part's byte object (the composite
strategy skips this, `if (this->hsm_enabled) continue;`). -/
def parts_pass (hsm : Bool) :
    List PartRec → List Nat → Nat → Nat → Int × List Nat × Nat × Nat
  | [], objs, ts, tsr => (0, objs, ts, tsr)
  | p :: rest, objs, ts, tsr =>
    let ts' := ts + p.size
    let tsr' := tsr + p.size_rounded
    if hsm then parts_pass hsm rest objs ts' tsr'
    else if p.oid ∈ objs then parts_pass hsm rest (objs.erase p.oid) ts' tsr'
    else (-ENOENT, objs, ts', tsr')

/-- The `do { list_parts(); ... } while (truncated)` loop of
`delete_parts` (rgw_sal_motr.cc:4434-4474).  `fuel` only bounds the
iteration count; any fuel larger than the number of batches computes the
loop. -/
def delete_parts_go (hsm : Bool) (obj_key : Key) (uid : String) :
    Nat → MotrState → Nat → Nat → Nat → Int × MotrState × Nat × Nat
  | 0, st, _, ts, tsr => (0, st, ts, tsr)
  | fuel + 1, st, marker, ts, tsr =>
    let r := list_parts st.multiparts obj_key uid 1000 marker
    if r.1 < 0 then (r.1, st, ts, tsr)
    else
      let q := parts_pass hsm r.2.1 st.motr_objs ts tsr
      let st' := { st with motr_objs := q.2.1 }
      if q.1 < 0 then (q.1, st', q.2.2.1, q.2.2.2)
      else if r.2.2.2 then delete_parts_go hsm obj_key uid fuel st' r.2.2.1 q.2.2.1 q.2.2.2
      else (0, st', q.2.2.1, q.2.2.2)

/-- The effective upload id of an upload object whose member id is empty:
derived from the object's bucket-index record
(`MotrStore::get_upload_id`, rgw_sal_motr.cc:5413-5440, on the key
`<name> SEP <instance>`; a delete-marker record carries no upload id). -/
def derive_upload_id (bidx : BucketIdx) (name inst : Key) : Except Int String :=
  match get_bucket_dir_ent bidx name inst with
  | .error e => .error e
  | .ok ent => .ok (if ent.flag_delete_marker then "" else ent.upload_id)

/-- `MotrMultipartUpload::delete_parts(dpp, version_id, size_rounded)`
(rgw_sal_motr.cc:4424-4510): scan-and-delete all parts, then — only when
the member upload id is non-empty (the code checks `get_upload_id()`, the
member, not the locally re-derived id) — subtract the accumulated size and
one object from the bucket stats.  Returns `(rc, state, *size_rounded)`. -/
def delete_parts (hsm : Bool) (st : MotrState) (owner bucket : String)
    (obj_name : Key) (member_upload_id : String) (version_id : Key) (fuel : Nat) :
    Int × MotrState × Nat :=
  let uidE : Except Int String :=
    if member_upload_id = "" then derive_upload_id st.bucket_index obj_name version_id
    else .ok member_upload_id
  match uidE with
  | .error e => (e, st, 0)
  | .ok uid =>
    let r := delete_parts_go hsm obj_name uid fuel st 0 0 0
    if r.1 < 0 then (r.1, r.2.1, 0)
    else if member_upload_id ≠ "" then
      let s := update_bucket_stats r.2.1.user_stats owner bucket r.2.2.1 r.2.2.2 1 false
      (s.1, { r.2.1 with user_stats := s.2 }, r.2.2.2)
    else (0, r.2.1, r.2.2.2)

/-- `MotrMultipartUpload::abort` (rgw_sal_motr.cc:4512-4543): check the
`multiparts.in-progress` record exists (else `-ERR_NO_SUCH_UPLOAD`),
delete the parts, then delete the in-progress record (a DEL failure is
logged as a warning and its code returned). -/
def multipart_abort (hsm : Bool) (st : MotrState) (owner bucket : String)
    (meta_key obj_name : Key) (upload_id : String) (fuel : Nat) : Int × MotrState :=
  match aGet st.inprogress meta_key with
  | none => (-ERR_NO_SUCH_UPLOAD, st)
  | some _ =>
    let r := delete_parts hsm st owner bucket obj_name upload_id [] fuel
    if r.1 < 0 then (r.1, r.2.1)
    else
      let d := aDel r.2.1.inprogress meta_key
      (d.1, { r.2.1 with inprogress := d.2 })

/-- `MotrObject::delete_part_objs` (rgw_sal_motr.cc:3991-3998): delete the
parts of a completed multipart object through a fresh upload handle whose
member upload id is empty (`get_multipart_upload(name, string())`), with
`version_id` the object's instance. -/
def delete_part_objs (hsm : Bool) (st : MotrState) (owner bucket : String)
    (obj_name inst : Key) (fuel : Nat) : Int × MotrState × Nat :=
  delete_parts hsm st owner bucket obj_name "" inst fuel

/-- The object-data deletion block of `MotrObject::remove_mobj_and_index_entry`
(rgw_sal_motr.cc:2277-2345, the `if (ent.meta.size != 0)` part).
For a multipart (`MultiMeta`) entry: when GC is enabled and the upload id
can be read back from the bucket index, enqueue to GC; otherwise delete the
part objects (and, for a composite, the composite object itself).  For a
simple object: open it, compute the rounded size, enqueue to GC when
enabled, otherwise delete it (the source's `this-meta.is_composite ? ...`
condition is a pointer-arithmetic typo that always takes the
`delete_hsm_enabled_mobj` arm; both arms delete the byte object here).
Returns `(rc, state, size_rounded)`. -/
def remove_data_stage (gc_enabled hsm : Bool) (st : MotrState) (ent : Dirent)
    (delete_key : Key) (obj_name inst : Key) (owner bucket : String) (fuel : Nat) :
    Int × MotrState × Nat :=
  if ent.size = 0 then (0, st, 0)
  else if ent.category = .MultiMeta then
    let pushed_st : Bool × MotrState :=
      if gc_enabled then
        match aGet st.bucket_index delete_key with
        | none => (false, st)
        | some e =>
            (true, { st with gc_queue := st.gc_queue ++ [{ tag := e.upload_id, size := ent.size }] })
      else (false, st)
    if pushed_st.1 then (0, pushed_st.2, 0)
    else
      let r := delete_part_objs hsm pushed_st.2 owner bucket obj_name inst fuel
      if r.1 < 0 then (r.1, r.2.1, r.2.2)
      else if ent.is_composite then
        -- `delete_part_objs(...) ?: delete_hsm_enabled_mobj(...)`
        if ent.oid ∈ r.2.1.motr_objs then
          (0, { r.2.1 with motr_objs := r.2.1.motr_objs.erase ent.oid }, r.2.2)
        else (-ENOENT, r.2.1, r.2.2)
      else (r.1, r.2.1, r.2.2)
  else
    -- simple object: open_mobj fails when the object does not exist
    if ent.oid ∉ st.motr_objs then (-ENOENT, st, 0)
    else
      let size_rounded := roundup ent.size ent.unit_sz
      if gc_enabled then
        (0, { st with gc_queue := st.gc_queue ++ [{ tag := toString ent.oid, size := ent.size }] },
          size_rounded)
      else
        (0, { st with motr_objs := st.motr_objs.erase ent.oid }, size_rounded)

/-- `MotrObject::remove_mobj_and_index_entry` (rgw_sal_motr.cc:2266-2370):
delete the byte object (or enqueue it to GC), delete the bucket-index
entry, and then — unless the entry is a delete-marker — subtract the
object's size and count from the bucket stats, returning the stats
result. -/
def remove_mobj_and_index_entry (gc_enabled hsm : Bool) (st : MotrState)
    (ent : Dirent) (delete_key : Key) (obj_name inst : Key)
    (bucket : String) (fuel : Nat) : Int × MotrState :=
  let stage := remove_data_stage gc_enabled hsm st ent delete_key obj_name inst ent.owner bucket fuel
  if stage.1 < 0 then (stage.1, stage.2.1)
  else
    let d := aDel stage.2.1.bucket_index delete_key
    let st2 := { stage.2.1 with bucket_index := d.2 }
    if d.1 < 0 then (d.1, st2)
    else if ent.flag_delete_marker then (d.1, st2)
    else
      let s := update_bucket_stats st2.user_stats ent.owner bucket ent.size stage.2.2 1 false
      (s.1, { st2 with user_stats := s.2 })

/-- `MotrObject::MotrDeleteOp::create_delete_marker`
(rgw_sal_motr.cc:2230-2264): construct the delete-marker entry
(`FLAG_DELETE_MARKER | FLAG_CURRENT`, size 0, mtime now) and PUT it into
the bucket index at `get_key_str()` — nothing else is written. -/
def create_delete_marker (st : MotrState) (name result_version_id : Key)
    (owner : String) (mtime : Nat) : Int × MotrState :=
  let ent_del_marker : Dirent :=
    { name := name, inst := result_version_id, mtime := mtime, size := 0,
      etag := "", owner := owner, category := .Main,
      flag_ver := false, flag_current := true, flag_delete_marker := true,
      oid := 0, unit_sz := 0, is_composite := false, upload_id := "" }
  let key := get_key_str name result_version_id
  (0, { st with bucket_index := aPut st.bucket_index key ent_del_marker })

/-- `MotrObject::update_version_entries` (rgw_sal_motr.cc:3847-3911):
fetch the latest record of the name; nothing to do when there is none, or
when it is not CURRENT and `set_is_latest` is false; otherwise rewrite its
flags (PUT-flow clears CURRENT and keeps VER; delete-flow restores
CURRENT) and PUT it back at `<name> SEP <instance>`. -/
def update_version_entries (st : MotrState) (name : Key) (set_is_latest : Bool) :
    Int × MotrState :=
  match fetch_latest_obj st.bucket_index name with
  | .error e => if e = -ENOENT then (0, st) else (e, st)
  | .ok ent =>
    if ¬ent.flag_current ∧ ¬set_is_latest then (0, st)
    else
      let ent' :=
        if set_is_latest then
          if ent.flag_delete_marker then
            { ent with flag_ver := false, flag_current := false }
          else { ent with flag_ver := true, flag_current := true }
        else
          { ent with flag_ver := true, flag_current := false }
      (0, { st with bucket_index := aPut st.bucket_index (ent.name ++ SEP :: ent.inst) ent' })

/-- `MotrObject::remove_null_obj` (rgw_sal_motr.cc:4240-4289): fetch the
null-version record at `<name> SEP`; nothing to remove when absent;
otherwise remove the byte object and index entry through
`remove_mobj_and_index_entry`. -/
def remove_null_obj (gc_enabled hsm : Bool) (st : MotrState) (name : Key)
    (bucket : String) (fuel : Nat) : Int × MotrState :=
  match aGet st.bucket_index (name ++ [SEP]) with
  | none => (0, st)
  | some old_ent =>
      remove_mobj_and_index_entry gc_enabled hsm st old_ent (name ++ [SEP])
        name old_ent.inst bucket fuel

/-- `MotrAtomicWriter::complete` (rgw_sal_motr.cc:4291-4422) for an
already-flushed writer (the residual-data flush is byte I/O below this
layer): build the dir entry (VER|CURRENT when the bucket is versioned or
suspended); for versioned buckets clear CURRENT on the previous latest;
for non-versioning-enabled buckets replace the null record; PUT the new
entry; then add the object's size and count to the bucket stats, returning
the stats result. -/
def atomic_writer_complete (gc_enabled hsm : Bool) (st : MotrState)
    (versioned versioning_enabled : Bool) (name inst : Key)
    (total_data_size unit_sz : Nat) (etag : String) (mtime : Nat)
    (owner bucket : String) (oid : Nat) (fuel : Nat) : Int × MotrState :=
  let ent : Dirent :=
    { name := name, inst := inst, mtime := mtime, size := total_data_size,
      etag := etag, owner := owner, category := .Main,
      flag_ver := versioned, flag_current := versioned, flag_delete_marker := false,
      oid := oid, unit_sz := unit_sz, is_composite := false, upload_id := "" }
  let size_rounded := if total_data_size ≠ 0 then roundup total_data_size unit_sz else 0
  let r1 := if versioned then update_version_entries st name false else (0, st)
  if r1.1 < 0 then (r1.1, r1.2)
  else
    let r2 :=
      if ¬versioning_enabled then remove_null_obj gc_enabled hsm r1.2 name bucket fuel
      else (0, r1.2)
    if r2.1 < 0 then (r2.1, r2.2)
    else
      let st3 := { r2.2 with bucket_index := aPut r2.2.bucket_index (get_key_str name inst) ent }
      let s := update_bucket_stats st3.user_stats owner bucket total_data_size size_rounded 1 true
      (s.1, { st3 with user_stats := s.2 })

theorem aGet_aPut {α : Type} (idx : List (Key × α)) (k : Key) (v : α) :
    aGet (aPut idx k v) k = some v := by
  unfold aGet aPut
  rw [List.find?_cons_of_pos _ (by simp)]
  rfl

/-- C4: delete-markers never contribute to bucket statistics.  Creating a
delete-marker writes only the bucket-index entry — the stats, objects and
GC queue are untouched; and removing a bucket-index entry that is a
delete-marker performs exactly the index delete, with no stats
subtraction (delete-markers are written with size 0). -/
theorem C4_delete_marker_stats (st : MotrState) (name vid : Key) (owner : String)
    (mtime : Nat) (gc hsm : Bool) (ent : Dirent) (delete_key obj_name inst : Key)
    (bucket : String) (fuel : Nat)
    (hdm : ent.flag_delete_marker = true) (hsize : ent.size = 0) :
    ((create_delete_marker st name vid owner mtime).1 = 0
      ∧ (create_delete_marker st name vid owner mtime).2.user_stats = st.user_stats
      ∧ (create_delete_marker st name vid owner mtime).2.motr_objs = st.motr_objs
      ∧ (create_delete_marker st name vid owner mtime).2.gc_queue = st.gc_queue
      ∧ ∃ e, aGet (create_delete_marker st name vid owner mtime).2.bucket_index
            (get_key_str name vid) = some e ∧ e.flag_delete_marker = true)
    ∧ remove_mobj_and_index_entry gc hsm st ent delete_key obj_name inst bucket fuel
        = ((aDel st.bucket_index delete_key).1,
           { st with bucket_index := (aDel st.bucket_index delete_key).2 }) := by
  constructor
  · refine ⟨rfl, rfl, rfl, rfl, ?_⟩
    exact ⟨_, aGet_aPut st.bucket_index (get_key_str name vid) _, rfl⟩
  · unfold remove_mobj_and_index_entry
    have hstage : remove_data_stage gc hsm st ent delete_key obj_name inst ent.owner bucket fuel
        = (0, st, 0) := by
      unfold remove_data_stage
      rw [if_pos hsize]
    rw [hstage]
    simp only [show ¬((0 : Int) < 0) by omega, if_false]
    by_cases hd : (aDel st.bucket_index delete_key).1 < 0
    · rw [if_pos hd]
    · rw [if_neg hd, if_pos hdm]

/-- A concrete state holding one delete-marker record, for the C4 witness. -/
def c4st : MotrState :=
  { bucket_index := [(entKey c3ent_dm, c3ent_dm)]
    user_stats := [(("u", "b"), ⟨7, 700, 770⟩)]
    multiparts := []
    inprogress := []
    motr_objs := [5]
    gc_queue := [] }

/-- Witness for `C4_delete_marker_stats`: create a delete-marker and remove
the existing delete-marker record on `c4st`. -/
theorem C4_delete_marker_stats_witness :
    (c3ent_dm.flag_delete_marker = true ∧ c3ent_dm.size = 0)
    ∧ (((create_delete_marker c4st "obj".toList "del2".toList "u" 40).1 = 0
      ∧ (create_delete_marker c4st "obj".toList "del2".toList "u" 40).2.user_stats
          = c4st.user_stats
      ∧ (create_delete_marker c4st "obj".toList "del2".toList "u" 40).2.motr_objs
          = c4st.motr_objs
      ∧ (create_delete_marker c4st "obj".toList "del2".toList "u" 40).2.gc_queue
          = c4st.gc_queue
      ∧ ∃ e, aGet (create_delete_marker c4st "obj".toList "del2".toList "u" 40).2.bucket_index
            (get_key_str "obj".toList "del2".toList) = some e ∧ e.flag_delete_marker = true)
    ∧ remove_mobj_and_index_entry false false c4st c3ent_dm (entKey c3ent_dm)
          "obj".toList c3ent_dm.inst "b" 1
        = ((aDel c4st.bucket_index (entKey c3ent_dm)).1,
           { c4st with bucket_index := (aDel c4st.bucket_index (entKey c3ent_dm)).2 })) :=
  ⟨⟨by decide, by decide⟩,
    C4_delete_marker_stats c4st "obj".toList "del2".toList "u" 40 false false c3ent_dm
      (entKey c3ent_dm) "obj".toList c3ent_dm.inst "b" 1 (by decide) (by decide)⟩

/-- A plain Main-category record of size 0 (no byte object) for the C5
counterexample. -/
def c5ent : Dirent := { c2ent_null with size := 0 }

/-- A state whose bucket index holds `c5ent` but whose user-stats index has
no header for the bucket: the post-index-delete stats read fails. -/
def c5st : MotrState :=
  { bucket_index := [(entKey c5ent, c5ent)]
    user_stats := []
    multiparts := []
    inprogress := []
    motr_objs := []
    gc_queue := [] }

/-- C5 counterexample: on `c5st` the bucket-index delete succeeds, the
subsequent stats-header read fails with `-ENOENT`, and
`remove_mobj_and_index_entry` returns that error — the DELETE does *not*
return success as the claim states (rgw_sal_motr.cc:2357-2364 `return rc;`
on a failed stats subtraction, and rgw_sal_motr.cc:4409-4415 likewise for
PUT). -/
theorem C5_counterexample :
    (aDel c5st.bucket_index (entKey c5ent)).1 = 0
    ∧ (remove_mobj_and_index_entry false false c5st c5ent (entKey c5ent)
        "obj".toList [] "b" 1).1 = -ENOENT
    ∧ ¬ (remove_mobj_and_index_entry false false c5st c5ent (entKey c5ent)
        "obj".toList [] "b" 1).1 = 0 := by
  refine ⟨by decide, by decide, by decide⟩

/-- C5 (amended): a stats-update failure after a successful bucket-index
write is logged *and propagated*: the mutation returns the stats error
instead of success.  First conjunct: the DELETE path
(`remove_mobj_and_index_entry`); second conjunct: the PUT path
(`MotrAtomicWriter::complete`, versioning-enabled case). -/
theorem C5_stats_failure_propagates :
    (∀ (gc hsm : Bool) (st st1 : MotrState) (ent : Dirent)
        (delete_key obj_name inst : Key) (bucket : String) (fuel sr : Nat)
        (bidx' : BucketIdx) (e : Int) (us : StatsIdx),
      ent.flag_delete_marker = false →
      remove_data_stage gc hsm st ent delete_key obj_name inst ent.owner bucket fuel
        = (0, st1, sr) →
      aDel st1.bucket_index delete_key = (0, bidx') →
      update_bucket_stats ({ st1 with bucket_index := bidx' }).user_stats ent.owner
          bucket ent.size sr 1 false = (e, us) →
      e ≠ 0 →
      remove_mobj_and_index_entry gc hsm st ent delete_key obj_name inst bucket fuel
        = (e, { st1 with bucket_index := bidx', user_stats := us }))
    ∧ (∀ (gc hsm : Bool) (st st1 : MotrState) (name inst : Key)
        (sz usz : Nat) (etag : String) (mtime : Nat) (owner bucket : String)
        (oid fuel : Nat) (e : Int) (us : StatsIdx),
      update_version_entries st name false = (0, st1) →
      update_bucket_stats st1.user_stats owner bucket sz
          (if sz ≠ 0 then roundup sz usz else 0) 1 true = (e, us) →
      e ≠ 0 →
      atomic_writer_complete gc hsm st true true name inst sz usz etag mtime
          owner bucket oid fuel
        = (e, { st1 with
            bucket_index := aPut st1.bucket_index (get_key_str name inst)
              { name := name, inst := inst, mtime := mtime, size := sz,
                etag := etag, owner := owner, category := .Main,
                flag_ver := true, flag_current := true, flag_delete_marker := false,
                oid := oid, unit_sz := usz, is_composite := false, upload_id := "" }
            user_stats := us })) := by
  constructor
  · intro gc hsm st st1 ent delete_key obj_name inst bucket fuel sr bidx' e us
      hdm hstage hdel hstats he
    unfold remove_mobj_and_index_entry
    rw [hstage]
    simp only [show ¬((0 : Int) < 0) by omega, if_false]
    rw [hdel]
    simp only [show ¬((0 : Int) < 0) by omega, if_false, hdm, Bool.false_eq_true, if_false]
    rw [hstats]
  · intro gc hsm st st1 name inst sz usz etag mtime owner bucket oid fuel e us
      hver hstats he
    unfold atomic_writer_complete
    simp only [if_pos rfl]
    rw [hver]
    simp only [show ¬((0 : Int) < 0) by omega, if_false, not_true, ite_false, ite_true]
    rw [hstats]

/-- A state for the C5 amended witness (PUT side): empty bucket index and
no stats header, so the version scan is a no-op and the stats update
fails. -/
def c5st2 : MotrState :=
  { bucket_index := []
    user_stats := []
    multiparts := []
    inprogress := []
    motr_objs := []
    gc_queue := [] }

/-- Witness for `C5_stats_failure_propagates`, instantiating both the
DELETE conjunct (on `c5st`) and the PUT conjunct (on `c5st2`). -/
theorem C5_stats_failure_propagates_witness :
    (c5ent.flag_delete_marker = false
      ∧ remove_data_stage false false c5st c5ent (entKey c5ent) "obj".toList []
          c5ent.owner "b" 1 = (0, c5st, 0)
      ∧ aDel c5st.bucket_index (entKey c5ent) = (0, [])
      ∧ update_bucket_stats ({ c5st with bucket_index := [] }).user_stats c5ent.owner
          "b" c5ent.size 0 1 false = (-ENOENT, [])
      ∧ (-ENOENT : Int) ≠ 0
      ∧ remove_mobj_and_index_entry false false c5st c5ent (entKey c5ent)
          "obj".toList [] "b" 1
        = (-ENOENT, { c5st with bucket_index := [], user_stats := [] }))
    ∧ (update_version_entries c5st2 "obj".toList false = (0, c5st2)
      ∧ update_bucket_stats c5st2.user_stats "u" "b" 100
          (if (100 : Nat) ≠ 0 then roundup 100 4096 else 0) 1 true = (-ENOENT, [])
      ∧ (-ENOENT : Int) ≠ 0
      ∧ atomic_writer_complete false false c5st2 true true "obj".toList "v1".toList
          100 4096 "e" 50 "u" "b" 9 1
        = (-ENOENT, { c5st2 with
            bucket_index := aPut c5st2.bucket_index (get_key_str "obj".toList "v1".toList)
              { name := "obj".toList, inst := "v1".toList, mtime := 50, size := 100,
                etag := "e", owner := "u", category := .Main,
                flag_ver := true, flag_current := true, flag_delete_marker := false,
                oid := 9, unit_sz := 4096, is_composite := false, upload_id := "" }
            user_stats := [] })) :=
  ⟨⟨by decide, by decide, by decide, by decide, by decide,
      C5_stats_failure_propagates.1 false false c5st c5st c5ent (entKey c5ent)
        "obj".toList [] "b" 1 0 [] (-ENOENT) [] (by decide) (by decide) (by decide)
        (by decide) (by decide)⟩,
    ⟨by decide, by decide, by decide,
      C5_stats_failure_propagates.2 false false c5st2 c5st2 "obj".toList "v1".toList
        100 4096 "e" 50 "u" "b" 9 1 (-ENOENT) [] (by decide) (by decide) (by decide)⟩⟩

theorem parts_pass_ok (hsm : Bool) :
    ∀ (ps : List PartRec) (objs objs' : List Nat) (ts tsr ts' tsr' : Nat),
      parts_pass hsm ps objs ts tsr = (0, objs', ts', tsr') →
      ts' = ts + (ps.map (fun p => p.size)).sum
      ∧ tsr' = tsr + (ps.map (fun p => p.size_rounded)).sum
      ∧ objs' ⊆ objs
      ∧ (hsm = true → objs' = objs)
      ∧ (hsm = false → objs.Nodup → objs'.Nodup ∧ ∀ p ∈ ps, p.oid ∉ objs') := by
  intro ps
  induction ps with
  | nil =>
    intro objs objs' ts tsr ts' tsr' h
    unfold parts_pass at h
    obtain ⟨h1, h2, h3⟩ : objs = objs' ∧ ts = ts' ∧ tsr = tsr' := by
      injection h with _ h'
      injection h' with ha hb
      injection hb with hb hc
      exact ⟨ha, hb, hc⟩
    subst h1; subst h2; subst h3
    exact ⟨by simp, by simp, fun a ha => ha, fun _ => rfl,
      fun _ hn => ⟨hn, fun p hp => absurd hp (List.not_mem_nil p)⟩⟩
  | cons p ps ih =>
    intro objs objs' ts tsr ts' tsr' h
    unfold parts_pass at h
    by_cases hh : hsm = true
    · rw [hh] at h
      simp only [if_true] at h
      have := ih objs objs' (ts + p.size) (tsr + p.size_rounded) ts' tsr' (by
        rw [hh]; exact h)
      obtain ⟨h1, h2, h3, h4, _⟩ := this
      refine ⟨by rw [h1]; simp; ring, by rw [h2]; simp; ring, h3, h4, ?_⟩
      intro hf
      rw [hf] at hh
      cases hh
    · have hf : hsm = false := by
        cases hsm
        · rfl
        · exact absurd rfl hh
      rw [hf] at h
      simp only [if_false, Bool.false_eq_true] at h
      by_cases hmem : p.oid ∈ objs
      · rw [if_pos hmem] at h
        have := ih (objs.erase p.oid) objs' (ts + p.size) (tsr + p.size_rounded) ts' tsr' (by
          rw [hf]; exact h)
        obtain ⟨h1, h2, h3, _, h5⟩ := this
        refine ⟨by rw [h1]; simp; ring, by rw [h2]; simp; ring,
          fun a ha => List.erase_subset _ _ (h3 ha), ?_, ?_⟩
        · intro habs
          rw [habs] at hf
          cases hf
        · intro _ hnd
          obtain ⟨hnd', hall⟩ := h5 hf (hnd.erase p.oid)
          refine ⟨hnd', ?_⟩
          intro q hq
          rcases List.mem_cons.mp hq with hq1 | hq1
          · subst hq1
            intro habs
            have : q.oid ∈ objs.erase q.oid := h3 habs
            rw [hnd.mem_erase_iff] at this
            exact this.1 rfl
          · exact hall q hq1
      · rw [if_neg hmem] at h
        exfalso
        have : (-ENOENT : Int) = 0 := by injection h with h1 _
        rw [show ENOENT = (2 : Int) from rfl] at this
        omega

/-- A single-part `multiparts` record for the C7 scenarios. -/
def c7part : PartRec := { num := 1, size := 100, size_rounded := 4096, oid := 42 }

/-- Its index key `<name>.<upload-id>.<00000001>`. -/
def c7partkey : Key := "obj".toList ++ '.' :: "uid1".toList ++ '.' :: pad8 1

/-- The `multiparts.in-progress` key of the upload. -/
def c7meta_key : Key := "_multipart_obj.uid1".toList

/-- A state with one in-progress upload of one uploaded part. -/
def c7st : MotrState :=
  { bucket_index := []
    user_stats := [(("u", "b"), ⟨5, 1000, 5000⟩)]
    multiparts := [(c7partkey, c7part)]
    inprogress := [(c7meta_key, ⟨"uid1"⟩)]
    motr_objs := [42]
    gc_queue := [] }

/-- C7 counterexample: on `c7st` the abort succeeds, but the upload's
per-part record in the `multiparts` index is *not* deleted — the claim's
"no multiparts record for the upload remains" is false.  (Neither
`MotrMultipartUpload::abort` nor `delete_parts` issues any `M0_IC_DEL`
against the `multiparts` index.) -/
theorem C7_counterexample :
    (multipart_abort false c7st "u" "b" c7meta_key "obj".toList "uid1" 1).1 = 0
    ∧ (multipart_abort false c7st "u" "b" c7meta_key "obj".toList "uid1" 1).2.multiparts
        = [(c7partkey, c7part)]
    ∧ ¬ (multipart_abort false c7st "u" "b" c7meta_key "obj".toList "uid1" 1).2.multiparts
        = [] := by
  refine ⟨by decide, by decide, by decide⟩

/-- C7 (amended): after a successful multipart abort, the
`multiparts.in-progress` record is removed and the upload's accumulated
size and one object count are subtracted from the bucket stats; in the
separate-part strategy every part's byte object is deleted, while in the
tiered strategy neither the part writes nor the composite object are
deleted by abort; the per-part records in the `multiparts` index are left
in place. -/
theorem C7_abort_amended (hsm : Bool) (st : MotrState) (owner bucket : String)
    (meta_key obj_name : Key) (uid : String) (rec : UploadRec)
    (ps : List PartRec) (nm : Nat) (objs' : List Nat) (ts tsr : Nat)
    (us : StatsIdx) (ip' : List (Key × UploadRec))
    (huid : uid ≠ "")
    (hin : aGet st.inprogress meta_key = some rec)
    (hlist : list_parts st.multiparts obj_name uid 1000 0 = (0, ps, nm, false))
    (hpass : parts_pass hsm ps st.motr_objs 0 0 = (0, objs', ts, tsr))
    (hstats : update_bucket_stats st.user_stats owner bucket ts tsr 1 false = (0, us))
    (hdel : aDel st.inprogress meta_key = (0, ip'))
    (hnodup : st.motr_objs.Nodup) :
    multipart_abort hsm st owner bucket meta_key obj_name uid 1
      = (0, { st with
          motr_objs := objs'
          user_stats := us
          inprogress := ip' })
    ∧ ts = (ps.map (fun p => p.size)).sum
    ∧ tsr = (ps.map (fun p => p.size_rounded)).sum
    ∧ (hsm = false → ∀ p ∈ ps, p.oid ∉ objs')
    ∧ (hsm = true → objs' = st.motr_objs)
    ∧ ({ st with
          motr_objs := objs'
          user_stats := us
          inprogress := ip' } : MotrState).multiparts = st.multiparts := by
  have hspec := parts_pass_ok hsm ps st.motr_objs objs' 0 0 ts tsr hpass
  obtain ⟨hts, htsr, _, hkeep, hdelobjs⟩ := hspec
  refine ⟨?_, by simpa using hts, by simpa using htsr,
    fun hf => (hdelobjs hf hnodup).2, hkeep, rfl⟩
  have hgo : delete_parts_go hsm obj_name uid 1 st 0 0 0
      = (0, { st with motr_objs := objs' }, ts, tsr) := by
    unfold delete_parts_go
    rw [hlist]
    dsimp only
    rw [if_neg (show ¬((0 : Int) < 0) by omega)]
    rw [hpass]
    dsimp only
    rw [if_neg (show ¬((0 : Int) < 0) by omega)]
    rfl
  have hdp : delete_parts hsm st owner bucket obj_name uid [] 1
      = (0, { st with motr_objs := objs', user_stats := us }, tsr) := by
    unfold delete_parts
    rw [if_neg huid]
    change (let r := delete_parts_go hsm obj_name uid 1 st 0 0 0;
      if r.1 < 0 then (r.1, r.2.1, 0)
      else if uid ≠ "" then
        (let s := update_bucket_stats r.2.1.user_stats owner bucket r.2.2.1 r.2.2.2 1 false
         (s.1, { r.2.1 with user_stats := s.2 }, r.2.2.2))
      else (0, r.2.1, r.2.2.2)) = _
    rw [hgo]
    dsimp only
    rw [if_neg (show ¬((0 : Int) < 0) by omega), if_pos huid]
    rw [hstats]
  unfold multipart_abort
  rw [hin]
  change (let r := delete_parts hsm st owner bucket obj_name uid [] 1;
    if r.1 < 0 then (r.1, r.2.1)
    else
      (let d := aDel r.2.1.inprogress meta_key
       (d.1, { r.2.1 with inprogress := d.2 }))) = _
  rw [hdp]
  dsimp only
  rw [if_neg (show ¬((0 : Int) < 0) by omega)]
  rw [hdel]

/-- Witness for `C7_abort_amended` on `c7st` (separate-part strategy). -/
theorem C7_abort_amended_witness :
    (("uid1" : String) ≠ ""
      ∧ aGet c7st.inprogress c7meta_key = some ⟨"uid1"⟩
      ∧ list_parts c7st.multiparts "obj".toList "uid1" 1000 0 = (0, [c7part], 1, false)
      ∧ parts_pass false [c7part] c7st.motr_objs 0 0 = (0, [], 100, 4096)
      ∧ update_bucket_stats c7st.user_stats "u" "b" 100 4096 1 false
          = (0, [(("u", "b"), ⟨4, 900, 904⟩)])
      ∧ aDel c7st.inprogress c7meta_key = (0, [])
      ∧ c7st.motr_objs.Nodup)
    ∧ (multipart_abort false c7st "u" "b" c7meta_key "obj".toList "uid1" 1
        = (0, { c7st with
            motr_objs := []
            user_stats := [(("u", "b"), ⟨4, 900, 904⟩)]
            inprogress := [] })
      ∧ (100 : Nat) = ([c7part].map (fun p => p.size)).sum
      ∧ (4096 : Nat) = ([c7part].map (fun p => p.size_rounded)).sum
      ∧ (false = false → ∀ p ∈ [c7part], p.oid ∉ ([] : List Nat))
      ∧ (false = true → ([] : List Nat) = c7st.motr_objs)
      ∧ ({ c7st with
            motr_objs := []
            user_stats := [(("u", "b"), ⟨4, 900, 904⟩)]
            inprogress := [] } : MotrState).multiparts = c7st.multiparts) :=
  ⟨⟨by decide, by decide, by decide, by decide, by decide, by decide, by decide⟩,
    C7_abort_amended false c7st "u" "b" c7meta_key "obj".toList "uid1" ⟨"uid1"⟩
      [c7part] 1 [] 100 4096 [(("u", "b"), ⟨4, 900, 904⟩)] []
      (by decide) (by decide) (by decide) (by decide) (by decide) (by decide) (by decide)⟩

end MotrSal
